import Mathlib

/-!
Shallow embedding of the photo-editor adjustment pipeline and compositor
(src/photo-editor/index.tsx) and proofs of the specification claims.

Conventions of the embedding:
* A pixel buffer (`ImageData` backed by a `Uint8ClampedArray`) is a list of
  RGBA pixels with natural-number channels together with a width and height.
* JavaScript floating-point arithmetic is modelled by exact real arithmetic;
  slider and curve-point values (which are also JS numbers but only ever feed
  decidable comparisons) are modelled by rationals.
* A store into a `Uint8ClampedArray` clamps to [0,255] and rounds half to
  even (`u8store`), per the ECMAScript `Uint8ClampedArray` conversion.
* `Math.round` is `⌊x + 1/2⌋` (`jsRound`).
* The stochastic grain operator takes an injected noise stream in place of
  `Math.random()`.
-/

namespace PhotoEditor

/-! ### Numeric store helpers -/

/-- Clamp a real to the interval [0,255] (`Math.max(0, Math.min(255, v))`). -/
noncomputable def clamp255 (v : ℝ) : ℝ := max 0 (min 255 v)

/-- Round half to even, as the `Uint8ClampedArray` element conversion does. -/
noncomputable def roundHalfEven (v : ℝ) : ℤ :=
  if Int.fract v < 1/2 then ⌊v⌋
  else if 1/2 < Int.fract v then ⌊v⌋ + 1
  else if Even ⌊v⌋ then ⌊v⌋ else ⌊v⌋ + 1

/-- Store a real value into a `Uint8ClampedArray` cell: clamp to [0,255],
round half to even. -/
noncomputable def u8store (v : ℝ) : ℕ := (roundHalfEven (clamp255 v)).toNat

/-- `Math.round`: round half toward positive infinity. -/
noncomputable def jsRound (v : ℝ) : ℤ := ⌊v + 1/2⌋

theorem clamp255_nonneg (v : ℝ) : 0 ≤ clamp255 v := le_max_left _ _

theorem clamp255_le (v : ℝ) : clamp255 v ≤ 255 := by
  unfold clamp255
  exact max_le (by norm_num) (min_le_left _ _)

theorem clamp255_mono {v w : ℝ} (h : v ≤ w) : clamp255 v ≤ clamp255 w :=
  max_le_max le_rfl (min_le_min le_rfl h)

theorem clamp255_of_mem {v : ℝ} (h0 : 0 ≤ v) (h1 : v ≤ 255) : clamp255 v = v := by
  unfold clamp255
  rw [min_eq_right h1, max_eq_right h0]

theorem roundHalfEven_intCast (n : ℤ) : roundHalfEven ((n : ℤ) : ℝ) = n := by
  unfold roundHalfEven
  rw [Int.fract_intCast]
  norm_num

theorem roundHalfEven_nonneg {v : ℝ} (h : 0 ≤ v) : 0 ≤ roundHalfEven v := by
  unfold roundHalfEven
  have hf : (0 : ℤ) ≤ ⌊v⌋ := Int.floor_nonneg.mpr h
  split_ifs <;> omega

theorem roundHalfEven_le {v : ℝ} {n : ℤ} (h : v ≤ (n : ℝ)) : roundHalfEven v ≤ n := by
  have hfl : ⌊v⌋ ≤ n := by
    have := Int.floor_le_floor h
    simpa using this
  unfold roundHalfEven
  rcases eq_or_lt_of_le hfl with heq | hlt2
  · -- ⌊v⌋ = n; then fract v = v - n ≤ 0, hence fract v < 1/2 and the result is ⌊v⌋
    have hfr : Int.fract v = v - (n : ℝ) := by rw [Int.fract, heq]
    have hle : v - (n : ℝ) ≤ 0 := by linarith
    have hmid : Int.fract v < 1/2 := by rw [hfr]; linarith
    rw [if_pos hmid]
    omega
  · split_ifs <;> omega

theorem u8store_le (v : ℝ) : u8store v ≤ 255 := by
  unfold u8store
  have h := roundHalfEven_le (show clamp255 v ≤ ((255 : ℤ) : ℝ) by
    exact_mod_cast clamp255_le v)
  omega

theorem u8store_natCast {n : ℕ} (h : n ≤ 255) : u8store (n : ℝ) = n := by
  unfold u8store
  rw [clamp255_of_mem (by positivity) (by exact_mod_cast h)]
  rw [show ((n : ℝ)) = ((n : ℤ) : ℝ) by push_cast; ring, roundHalfEven_intCast]
  simp

/-! ### Pixel buffers -/

/-- One RGBA pixel of a `Uint8ClampedArray`-backed buffer. -/
structure Pix where
  r : ℕ
  g : ℕ
  b : ℕ
  a : ℕ
deriving DecidableEq, Repr

/-- An `ImageData`: width, height and row-major RGBA data. -/
structure Img where
  w : ℕ
  h : ℕ
  data : List Pix
deriving DecidableEq, Repr

/-- Every channel of every pixel is in [0,255] (automatic for real
`Uint8ClampedArray` contents). -/
def ValidImg (img : Img) : Prop :=
  ∀ p ∈ img.data, p.r ≤ 255 ∧ p.g ≤ 255 ∧ p.b ≤ 255 ∧ p.a ≤ 255

instance (img : Img) : Decidable (ValidImg img) := by
  unfold ValidImg; infer_instance

/-- Read pixel `i` of a buffer (all real accesses are in bounds). -/
def pixAt (img : Img) (i : ℕ) : Pix := img.data.getD i ⟨0, 0, 0, 0⟩

/-! ### Color space converter (`rgbToHsl`, `hslToRgb`) -/

/-- `rgbToHsl` from the source: channels are divided by 255, hue is returned
in degrees, saturation and lightness in [0,1].  The `switch (max)` statement
matches the first case whose value equals `max`. -/
noncomputable def rgbToHsl (r0 g0 b0 : ℝ) : ℝ × ℝ × ℝ :=
  let r := r0 / 255
  let g := g0 / 255
  let b := b0 / 255
  let mx := max r (max g b)
  let mn := min r (min g b)
  let l := (mx + mn) / 2
  if mx = mn then (0, 0, l)
  else
    let d := mx - mn
    let s := if l > 1/2 then d / (2 - mx - mn) else d / (mx + mn)
    let h :=
      if mx = r then (g - b) / d + (if g < b then 6 else 0)
      else if mx = g then (b - r) / d + 2
      else (r - g) / d + 4
    (h / 6 * 360, s, l)

/-- The `hue2rgb` helper of `hslToRgb`. -/
noncomputable def hue2rgb (p q t0 : ℝ) : ℝ :=
  let t1 := if t0 < 0 then t0 + 1 else t0
  let t := if t1 > 1 then t1 - 1 else t1
  if t < 1/6 then p + (q - p) * 6 * t
  else if t < 1/2 then q
  else if t < 2/3 then p + (q - p) * (2/3 - t) * 6
  else p

/-- `hslToRgb` from the source: hue in degrees in, channels scaled back to
[0,255] out. -/
noncomputable def hslToRgb (h0 s l : ℝ) : ℝ × ℝ × ℝ :=
  let h := h0 / 360
  if s = 0 then (l * 255, l * 255, l * 255)
  else
    let q := if l < 1/2 then l * (1 + s) else l + s - l * s
    let p := 2 * l - q
    (hue2rgb p q (h + 1/3) * 255, hue2rgb p q h * 255, hue2rgb p q (h - 1/3) * 255)

/-! ### Scalar adjustment operators -/

/-- `applyExposure`: multiply RGB by `2^(amount/100)`, clamp, alpha untouched. -/
noncomputable def applyExposure (img : Img) (amount : ℚ) : Img :=
  if amount = 0 then img
  else
    let multiplier : ℝ := (2 : ℝ) ^ ((amount : ℝ) / 100)
    { img with data := img.data.map fun p =>
        ⟨u8store (clamp255 (p.r * multiplier)),
         u8store (clamp255 (p.g * multiplier)),
         u8store (clamp255 (p.b * multiplier)), p.a⟩ }

/-- `applyTemperature`: shift red up and blue down by `temperature/2`. -/
noncomputable def applyTemperature (img : Img) (temperature : ℚ) : Img :=
  let amount : ℚ := temperature / 2
  if amount = 0 then img
  else
    { img with data := img.data.map fun p =>
        ⟨u8store (clamp255 (p.r + (amount : ℝ))), p.g,
         u8store (clamp255 (p.b - (amount : ℝ))), p.a⟩ }

/-- `applyVibrance`: boost channels toward the max channel, suppressed for
already-saturated pixels; pixels whose boost sign disagrees with the
adjustment sign are skipped. -/
noncomputable def applyVibrance (img : Img) (amount : ℚ) : Img :=
  let adjust : ℚ := amount * (3/2)
  if adjust = 0 then img
  else
    { img with data := img.data.map fun p =>
        let r : ℝ := p.r
        let g : ℝ := p.g
        let b : ℝ := p.b
        let mx := max r (max g b)
        let avg := (r + g + b) / 3
        let sat := |mx - avg|
        let boost := ((adjust : ℝ) / 255) * (1 - sat / 128)
        if boost ≤ 0 ∧ 0 < amount then p
        else if 0 ≤ boost ∧ amount < 0 then p
        else
          ⟨u8store (clamp255 (r + (mx - r) * boost)),
           u8store (clamp255 (g + (mx - g) * boost)),
           u8store (clamp255 (b + (mx - b) * boost)), p.a⟩ }

/-- `applyDehaze`: inverse atmospheric-scattering model with airlight
(220,220,230) and transmission floor 0.1. -/
noncomputable def applyDehaze (img : Img) (amount : ℚ) : Img :=
  if amount = 0 then img
  else
    let strength : ℝ := (amount : ℝ) / 100
    { img with data := img.data.map fun p =>
        let r : ℝ := p.r
        let g : ℝ := p.g
        let b : ℝ := p.b
        let transmission := 1 - strength * min (r / 220) (min (g / 220) (b / 230))
        let t := max transmission (1/10)
        ⟨u8store (clamp255 ((r - 220) / t + 220)),
         u8store (clamp255 ((g - 220) / t + 220)),
         u8store (clamp255 ((b - 230) / t + 230)), p.a⟩ }

/-- `applyHighlightsShadows`: squared-cosine masks on HSL lightness. -/
noncomputable def applyHighlightsShadows (img : Img) (highlights shadows : ℚ) : Img :=
  let h_adj : ℚ := highlights / 100
  let s_adj : ℚ := shadows / 100
  if h_adj = 0 ∧ s_adj = 0 then img
  else
    { img with data := img.data.map fun p =>
        let hsl := rgbToHsl p.r p.g p.b
        let l := hsl.2.2
        let shadow_mask := if l < 1/2 then Real.cos (l * Real.pi) ^ 2 else 0
        let shadow_boost := (s_adj : ℝ) * shadow_mask
        let highlight_mask := if l > 1/2 then Real.cos ((1 - l) * Real.pi) ^ 2 else 0
        let highlight_boost := (h_adj : ℝ) * highlight_mask
        let new_l := max 0 (min 1 (l + shadow_boost + highlight_boost))
        let rgb := hslToRgb hsl.1 hsl.2.1 new_l
        ⟨u8store rgb.1, u8store rgb.2.1, u8store rgb.2.2, p.a⟩ }

/-- `applyWhitesBlacks`: luma-weighted additive white/black point shifts,
clamped after each of the two conditional passes. -/
noncomputable def applyWhitesBlacks (img : Img) (whites blacks : ℚ) : Img :=
  if whites = 0 ∧ blacks = 0 then img
  else
    let whites_adj : ℝ := (whites : ℝ) / 100
    let blacks_adj : ℝ := (blacks : ℝ) / 100
    { img with data := img.data.map fun p =>
        let r0 : ℝ := p.r
        let g0 : ℝ := p.g
        let b0 : ℝ := p.b
        let luma := (r0 * (299/1000) + g0 * (587/1000) + b0 * (114/1000)) / 255
        let white_factor := whites_adj * luma * luma
        let r1 := if whites_adj ≠ 0 then clamp255 (r0 + white_factor * 255) else r0
        let g1 := if whites_adj ≠ 0 then clamp255 (g0 + white_factor * 255) else g0
        let b1 := if whites_adj ≠ 0 then clamp255 (b0 + white_factor * 255) else b0
        let black_factor := blacks_adj * (1 - luma) * (1 - luma)
        let r2 := if blacks_adj ≠ 0 then clamp255 (r1 - black_factor * 255) else r1
        let g2 := if blacks_adj ≠ 0 then clamp255 (g1 - black_factor * 255) else g1
        let b2 := if blacks_adj ≠ 0 then clamp255 (b1 - black_factor * 255) else b1
        ⟨u8store r2, u8store g2, u8store b2, p.a⟩ }

/-- The 3×3 unsharp kernel entry at offset `(ky, kx)` (offsets in 0..2 are
the loop offsets plus one), matching `kernel[(ky+1)*3+(kx+1)]`. -/
noncomputable def sharpenKernel (s : ℝ) (ky kx : ℕ) : ℝ :=
  if ky = 1 ∧ kx = 1 then 1 + 4 * s
  else if ky = 1 ∨ kx = 1 then -s
  else 0

/-- `applySharpen`: 3×3 convolution from an unmodified copy of the source;
the one-pixel border is left unprocessed; alpha untouched. -/
noncomputable def applySharpen (img : Img) (amount : ℚ) : Img :=
  let strength : ℚ := amount / 100
  if strength = 0 then img
  else
    let w := img.w
    let conv : ℕ → ℕ → (Pix → ℕ) → ℝ := fun x y ch =>
      (List.range 3).foldl (fun acc ky =>
        (List.range 3).foldl (fun acc2 kx =>
          acc2 + (ch (pixAt img ((y - 1 + ky) * w + (x - 1 + kx))) : ℝ) *
            sharpenKernel (strength : ℝ) ky kx) acc) 0
    { img with data := img.data.mapIdx fun i p =>
        let x := i % w
        let y := i / w
        if 1 ≤ x ∧ x + 1 < w ∧ 1 ≤ y ∧ y + 1 < img.h then
          ⟨u8store (clamp255 (conv x y Pix.r)),
           u8store (clamp255 (conv x y Pix.g)),
           u8store (clamp255 (conv x y Pix.b)), p.a⟩
        else p }

/-- `applyGrain`: add the same per-pixel noise sample to R, G and B.  The
`Math.random()` stream is injected as `noise` (values in [0,1)). -/
noncomputable def applyGrain (img : Img) (amount : ℚ) (noise : ℕ → ℝ) : Img :=
  if amount = 0 then img
  else
    let strength : ℝ := (amount : ℝ) * (255/100)
    { img with data := img.data.mapIdx fun i p =>
        let n := (noise i - 1/2) * strength
        ⟨u8store (clamp255 (p.r + n)),
         u8store (clamp255 (p.g + n)),
         u8store (clamp255 (p.b + n)), p.a⟩ }

/-! ### Selective HSL adjustment -/

/-- One `{h, s, l}` adjustment triple (sliders −100..100). -/
structure HSLColor where
  h : ℚ
  s : ℚ
  l : ℚ
deriving DecidableEq, Repr

/-- The eight named band adjustments. -/
structure HSLFilters where
  red : HSLColor
  orange : HSLColor
  yellow : HSLColor
  green : HSLColor
  aqua : HSLColor
  blue : HSLColor
  purple : HSLColor
  magenta : HSLColor
deriving DecidableEq, Repr

/-- `HSL_RANGES` paired with the matching adjustment, in the object's
insertion order (the order `Object.entries` iterates). -/
def hslBands (f : HSLFilters) : List (HSLColor × ℚ × ℚ) :=
  [(f.red, 0, 90), (f.orange, 30, 90), (f.yellow, 60, 90), (f.green, 120, 150),
   (f.aqua, 180, 90), (f.blue, 240, 150), (f.purple, 285, 120), (f.magenta, 330, 90)]

/-- JavaScript truncation toward zero. -/
noncomputable def jsTrunc (x : ℝ) : ℤ := if 0 ≤ x then ⌊x⌋ else -⌊-x⌋

/-- The JavaScript `%` operator on numbers (truncated remainder). -/
noncomputable def jsFmod (a b : ℝ) : ℝ := a - b * (jsTrunc (a / b) : ℝ)

/-- `applyHsl`: raised-cosine band influences accumulated over the eight
bands, normalized when the total influence exceeds 1. -/
noncomputable def applyHsl (img : Img) (hsl : HSLFilters) : Img :=
  { img with data := img.data.map fun p =>
      let c := rgbToHsl p.r p.g p.b
      let h := c.1
      let s := c.2.1
      let l := c.2.2
      let acc := (hslBands hsl).foldl
        (fun (acc : ℝ × ℝ × ℝ × ℝ) band =>
          let adj := band.1
          let center : ℝ := (band.2.1 : ℝ)
          let range : ℝ := (band.2.2 : ℝ)
          if adj.h = 0 ∧ adj.s = 0 ∧ adj.l = 0 then acc
          else
            let dist := min |h - center| (360 - |h - center|)
            let influence :=
              if dist < range / 2 then ((Real.cos (dist / (range / 2) * Real.pi) + 1) / 2) ^ 2
              else 0
            if 0 < influence then
              (acc.1 + (adj.h : ℝ) / 100 * 180 * influence,
               acc.2.1 + (adj.s : ℝ) / 100 * influence,
               acc.2.2.1 + (adj.l : ℝ) / 100 * influence,
               acc.2.2.2 + influence)
            else acc)
        (0, 0, 0, 0)
      let totalInfluence := acc.2.2.2
      let totH := if 1 < totalInfluence then acc.1 / totalInfluence else acc.1
      let totS := if 1 < totalInfluence then acc.2.1 / totalInfluence else acc.2.1
      let totL := if 1 < totalInfluence then acc.2.2.1 / totalInfluence else acc.2.2.1
      let h' := jsFmod (h + totH + 360) 360
      let s' := max 0 (min 1 (s + totS))
      let l' := max 0 (min 1 (l + totL))
      let rgb := hslToRgb h' s' l'
      ⟨u8store rgb.1, u8store rgb.2.1, u8store rgb.2.2, p.a⟩ }

/-! ### Box blur and glow/haze compositor -/

/-- The in-bounds sample offsets of a radius-`r` window centred at `x` on a
line of length `w`: the loop index `i ∈ [-r, r]` is shifted to `j = i + r ∈
[0, 2r]`, and the sample position is `x + j - r`. -/
def windowIdxs (w r x : ℕ) : List ℕ :=
  ((List.range (2 * r + 1)).filter fun j => r ≤ x + j ∧ x + j - r < w).map fun j => x + j - r

/-- Sum of a channel over a sample-index list. -/
def sampleSum (img : Img) (idxs : List ℕ) (ch : Pix → ℕ) : ℕ :=
  idxs.foldl (fun acc i => acc + ch (pixAt img i)) 0

/-- One box-blur pass: each output sample is the average of the in-bounds
window samples (`idxsOf` gives the window's buffer indices). -/
noncomputable def blurPass (img : Img) (idxsOf : ℕ → ℕ → List ℕ) : Img :=
  { img with data := (List.range (img.h * img.w)).map fun i =>
      let x := i % img.w
      let y := i / img.w
      let idxs := idxsOf x y
      let count : ℝ := (idxs.length : ℝ)
      ⟨u8store ((sampleSum img idxs Pix.r : ℝ) / count),
       u8store ((sampleSum img idxs Pix.g : ℝ) / count),
       u8store ((sampleSum img idxs Pix.b : ℝ) / count),
       u8store ((sampleSum img idxs Pix.a : ℝ) / count)⟩ }

/-- `boxBlur`: a horizontal pass over the source followed by a vertical pass
over the (already quantized) horizontal result. -/
noncomputable def boxBlur (img : Img) (r : ℕ) : Img :=
  let horiz := blurPass img fun x y => (windowIdxs img.w r x).map fun xi => y * img.w + xi
  blurPass horiz fun x y => (windowIdxs horiz.h r y).map fun yi => yi * horiz.w + x

/-- `applyHaze`: build a warmth-tinted glow map whose alpha is the squared,
renormalized luma, box-blur it, and blend it over the image. -/
noncomputable def applyHaze (img : Img) (amount spread : ℚ) : Img :=
  if amount = 0 then img
  else
    let warmth : ℚ := (spread - 50) / 50
    let hazeR : ℚ := if 0 < warmth then min 255 (230 + 25 * warmth) else max 0 (230 + 25 * warmth)
    let hazeG : ℚ := if 0 < warmth then min 255 (230 + 10 * warmth) else max 0 (230 + 5 * warmth)
    let hazeB : ℚ := if 0 < warmth then max 0 (230 - 25 * warmth) else min 255 (230 - 40 * warmth)
    let glowMap : Img :=
      { img with data := img.data.map fun p =>
          let luma : ℝ := p.r * (299/1000) + p.g * (587/1000) + p.b * (114/1000)
          ⟨u8store (hazeR : ℝ), u8store (hazeG : ℝ), u8store (hazeB : ℝ),
           u8store (luma * luma / 255)⟩ }
    let blurRadius : ℕ := (⌊max 1 ((amount / 100) * ((min img.w img.h : ℕ) * (5/100 : ℚ)))⌋).toNat
    let blurred := boxBlur glowMap blurRadius
    let hazeAmount : ℝ := (amount : ℝ) / 100
    { img with data := img.data.mapIdx fun i p =>
        let q := pixAt blurred i
        let glowAlpha : ℝ := (q.a : ℝ) / 255
        let blend := glowAlpha * hazeAmount
        ⟨u8store (p.r * (1 - blend) + q.r * blend),
         u8store (p.g * (1 - blend) + q.g * blend),
         u8store (p.b * (1 - blend) + q.b * blend), p.a⟩ }

/-! ### Tone curve engine -/

/-- A curve: a list of `{x, y}` control points (JS numbers). -/
abbrev Curve := List (ℚ × ℚ)

/-- The `Map`-based deduplication of control points by x: first-insertion key
order, last value wins (`points.forEach(p => pointMap.set(p.x, p.y))`). -/
def dedupByX (pts : Curve) : Curve :=
  pts.foldl
    (fun acc p =>
      if acc.any fun q => q.1 = p.1 then
        acc.map fun q => if q.1 = p.1 then (q.1, p.2) else q
      else acc ++ [p])
    []

/-- Deduplicated points sorted ascending by x (`.sort((a, b) => a.x - b.x)`;
keys are distinct, so stability is irrelevant). -/
def sortedPoints (pts : Curve) : Curve :=
  (dedupByX pts).insertionSort fun a b => a.1 ≤ b.1

/-- x coordinate of sorted point `k`. -/
def ptX (s : Curve) (k : ℕ) : ℚ := (s.getD k (0, 0)).1

/-- y coordinate of sorted point `k`. -/
def ptY (s : Curve) (k : ℕ) : ℚ := (s.getD k (0, 0)).2

/-- Segment width `dx[i] = x[i+1] - x[i]`. -/
def segDx (s : Curve) (k : ℕ) : ℚ := ptX s (k + 1) - ptX s k

/-- Segment slope `delta[i]`, zero when the segment is (nearly) zero-width. -/
def segDelta (s : Curve) (k : ℕ) : ℚ :=
  if segDx s k ≤ 1 / 10000000 then 0 else (ptY s (k + 1) - ptY s k) / segDx s k

/-- Pointwise functional update of the tangent array. -/
noncomputable def updTan (m : ℕ → ℝ) (k : ℕ) (v : ℝ) : ℕ → ℝ :=
  fun j => if j = k then v else m j

/-- Initial tangents: endpoint one-sided slopes, interior averages. -/
noncomputable def mInit (δ : ℕ → ℚ) (n : ℕ) : ℕ → ℝ :=
  fun k =>
    if k = 0 then (δ 0 : ℝ)
    else if k = n - 1 then (δ (n - 2) : ℝ)
    else ((δ (k - 1) : ℝ) + (δ k : ℝ)) / 2

/-- One iteration of the Fritsch–Carlson fix-up loop over segment `i`:
zero-delta segments zero both tangents; otherwise negative-sign tangents are
zeroed and the pair is rescaled onto the circle of radius 3 when
`hypot(α, β) > 3`. -/
noncomputable def fixStep (δ : ℕ → ℚ) (m : ℕ → ℝ) (i : ℕ) : ℕ → ℝ :=
  if δ i = 0 then updTan (updTan m i 0) (i + 1) 0
  else
    let a : ℝ := m i / (δ i : ℝ)
    let b : ℝ := m (i + 1) / (δ i : ℝ)
    let mz := if a < 0 then updTan m i 0 else m
    let mz2 := if b < 0 then updTan mz (i + 1) 0 else mz
    let hyp := Real.sqrt (a * a + b * b)
    if 3 < hyp then
      updTan (updTan mz2 i (mz2 i * (3 / hyp))) (i + 1) (mz2 (i + 1) * (3 / hyp))
    else mz2

/-- Tangents after the fix-up loop over all `n - 1` segments. -/
noncomputable def mFinal (δ : ℕ → ℚ) (n : ℕ) : ℕ → ℝ :=
  (List.range (n - 1)).foldl (fixStep δ) (mInit δ n)

/-- The `while (pointIndex < n-2 && i > x[pointIndex+1]) pointIndex++` loop,
with explicit fuel (any fuel `≥ n` reaches the fixed point). -/
def advIdx (s : Curve) (n : ℕ) (i : ℚ) : ℕ → ℕ → ℕ
  | 0, p => p
  | fuel + 1, p => if p + 2 < n ∧ ptX s (p + 1) < i then advIdx s n i fuel (p + 1) else p

/-- The unclamped Hermite-basis LUT sample at integer position `i` using
segment `p`. -/
noncomputable def lutEntry (s : Curve) (m : ℕ → ℝ) (i : ℕ) (p : ℕ) : ℝ :=
  let hq : ℚ := segDx s p
  let t : ℝ := if 1 / 10000000 < hq then ((i : ℝ) - (ptX s p : ℝ)) / (hq : ℝ) else 0
  let y0 : ℝ := (ptY s p : ℝ)
  let y1 : ℝ := (ptY s (p + 1) : ℝ)
  let m0 : ℝ := m p * (hq : ℝ)
  let m1 : ℝ := m (p + 1) * (hq : ℝ)
  let t2 := t * t
  let t3 := t2 * t
  (2 * t3 - 3 * t2 + 1) * y0 + (t3 - 2 * t2 + t) * m0 + (-2 * t3 + 3 * t2) * y1 +
    (t3 - t2) * m1

/-- The main LUT fill loop from position `i` with carried segment index `p`
(structural fuel; called with fuel 256 from position 0). -/
noncomputable def lutLoop (s : Curve) (n : ℕ) (m : ℕ → ℝ) : ℕ → ℕ → ℕ → List ℝ
  | 0, _, _ => []
  | fuel + 1, i, p =>
    let p' := advIdx s n (i : ℚ) n p
    clamp255 (lutEntry s m i p') :: lutLoop s n m fuel (i + 1) p'

/-- `createLutFromPoints`: deduplicate, sort, and build the 256-entry LUT
(identity for no points, constant for one point, monotone-fixed Hermite
spline otherwise; the final entry is forced to the last point's y). -/
noncomputable def createLutFromPoints (points : Curve) : List ℝ :=
  let s := sortedPoints points
  let n := s.length
  if n = 0 then (List.range 256).map fun i => (i : ℝ)
  else if n = 1 then List.replicate 256 (clamp255 (ptY s 0 : ℝ))
  else (lutLoop s n (mFinal (segDelta s) n) 256 0 0).set 255 (ptY s (n - 1) : ℝ)

/-- The 8×8 ordered (Bayer) dither matrix. -/
def bayerMatrix : List (List ℕ) :=
  [[0, 32, 8, 40, 2, 34, 10, 42],
   [48, 16, 56, 24, 50, 18, 58, 26],
   [12, 44, 4, 36, 14, 46, 6, 38],
   [60, 28, 52, 20, 62, 30, 54, 22],
   [3, 35, 11, 43, 1, 33, 9, 41],
   [51, 19, 59, 27, 49, 17, 57, 25],
   [15, 47, 7, 39, 13, 45, 5, 37],
   [63, 31, 55, 23, 61, 29, 53, 21]]

/-- `BAYER_MATRIX_8X8[y % 8][x % 8]`. -/
def bayerAt (y x : ℕ) : ℕ := ((bayerMatrix.getD (y % 8) []).getD (x % 8) 0)

/-- The four per-channel curves. -/
structure CurvesState where
  rgb : Curve
  red : Curve
  green : Curve
  blue : Curve
deriving DecidableEq, Repr

/-- The inline default-curve test of `applyCurves`
(`c.length === 2 && c[0].x === 0 && ... && c[1].y === 255`). -/
def isDefaultCurve (c : Curve) : Bool :=
  c.length == 2 && c.getD 0 (1, 1) == ((0 : ℚ), (0 : ℚ)) &&
    c.getD 1 (0, 0) == ((255 : ℚ), (255 : ℚ))

/-- LUT lookup `lut[idx]` for an index that is in [0,255] at every call site. -/
noncomputable def lutGet (lut : List ℝ) (k : ℤ) : ℝ := lut.getD k.toNat 0

/-- `Math.round(Math.max(0, Math.min(255, v)))`: the dithered LUT index. -/
noncomputable def lutIdx (v : ℝ) : ℤ := jsRound (clamp255 v)

/-- `applyCurves`: per-channel LUTs with hue-masked blending when any channel
curve is non-default, ordered dithering before every LUT lookup, and the
`rgb` LUT applied last. -/
noncomputable def applyCurves (img : Img) (curves : CurvesState) : Img :=
  let lutRgb := createLutFromPoints curves.rgb
  let lutR := createLutFromPoints curves.red
  let lutG := createLutFromPoints curves.green
  let lutB := createLutFromPoints curves.blue
  let isRedDefault := isDefaultCurve curves.red
  let isGreenDefault := isDefaultCurve curves.green
  let isBlueDefault := isDefaultCurve curves.blue
  let needsHueMasking := !isRedDefault || !isGreenDefault || !isBlueDefault
  { img with data := img.data.mapIdx fun i p =>
      let x := i % img.w
      let y := i / img.w
      let dither : ℝ := (bayerAt y x : ℝ) / 64 - 1/2
      let r_in : ℝ := p.r
      let g_in : ℝ := p.g
      let b_in : ℝ := p.b
      let proc : ℝ × ℝ × ℝ :=
        if needsHueMasking then
          let c := rgbToHsl r_in g_in b_in
          if c.2.1 > 1/20 then
            let r_adj := lutGet lutR (lutIdx (r_in + dither))
            let g_adj := lutGet lutG (lutIdx (g_in + dither))
            let b_adj := lutGet lutB (lutIdx (b_in + dither))
            let h := c.1
            let distR := min |h - 0| (360 - |h - 0|)
            let redInfluence : ℝ :=
              if !isRedDefault ∧ distR < 90 then
                ((Real.cos (distR / 90 * Real.pi) + 1) / 2) ^ (3/2 : ℝ) else 0
            let distG := min |h - 120| (360 - |h - 120|)
            let greenInfluence : ℝ :=
              if !isGreenDefault ∧ distG < 90 then
                ((Real.cos (distG / 90 * Real.pi) + 1) / 2) ^ (3/2 : ℝ) else 0
            let distB := min |h - 240| (360 - |h - 240|)
            let blueInfluence : ℝ :=
              if !isBlueDefault ∧ distB < 90 then
                ((Real.cos (distB / 90 * Real.pi) + 1) / 2) ^ (3/2 : ℝ) else 0
            (r_in * (1 - redInfluence) + r_adj * redInfluence,
             g_in * (1 - greenInfluence) + g_adj * greenInfluence,
             b_in * (1 - blueInfluence) + b_adj * blueInfluence)
          else (r_in, g_in, b_in)
        else
          (lutGet lutR (lutIdx (r_in + dither)),
           lutGet lutG (lutIdx (g_in + dither)),
           lutGet lutB (lutIdx (b_in + dither)))
      ⟨u8store (lutGet lutRgb (lutIdx (proc.1 + dither))),
       u8store (lutGet lutRgb (lutIdx (proc.2.1 + dither))),
       u8store (lutGet lutRgb (lutIdx (proc.2.2 + dither))), p.a⟩ }

/-! ### Adjustments data model and pipeline orchestrator -/

/-- The flat slider record (field order is the object-literal insertion
order of `initialFilters`). -/
structure BasicFilters where
  brightness : ℚ
  contrast : ℚ
  saturation : ℚ
  sepia : ℚ
  exposure : ℚ
  highlights : ℚ
  shadows : ℚ
  whites : ℚ
  blacks : ℚ
  temperature : ℚ
  vibrance : ℚ
  sharpen : ℚ
  dehaze : ℚ
  grain : ℚ
  haze : ℚ
  hazeSpread : ℚ
deriving DecidableEq, Repr

/-- The aggregate adjustment value. -/
structure Adjustments where
  filters : BasicFilters
  hsl : HSLFilters
  curves : CurvesState
deriving DecidableEq, Repr

/-- `initialFilters`. -/
def initialFilters : BasicFilters :=
  { brightness := 100, contrast := 100, saturation := 100, sepia := 0,
    exposure := 0, highlights := 0, shadows := 0, whites := 0, blacks := 0,
    temperature := 0, vibrance := 0, sharpen := 0, dehaze := 0, grain := 0,
    haze := 0, hazeSpread := 50 }

/-- `initialHSL`. -/
def initialHSL : HSLFilters :=
  { red := ⟨0, 0, 0⟩, orange := ⟨0, 0, 0⟩, yellow := ⟨0, 0, 0⟩, green := ⟨0, 0, 0⟩,
    aqua := ⟨0, 0, 0⟩, blue := ⟨0, 0, 0⟩, purple := ⟨0, 0, 0⟩, magenta := ⟨0, 0, 0⟩ }

/-- `initialCurve`. -/
def initialCurve : Curve := [(0, 0), (255, 255)]

/-- `initialCurves`. -/
def initialCurves : CurvesState :=
  { rgb := initialCurve, red := initialCurve, green := initialCurve, blue := initialCurve }

/-- `initialAdjustments`. -/
def initialAdjustments : Adjustments :=
  { filters := initialFilters, hsl := initialHSL, curves := initialCurves }

/-- `curvesAreDefault` from the component (the null check is vacuous for a
structure value). -/
def curvesAreDefault (c : CurvesState) : Bool :=
  isDefaultCurve c.rgb && isDefaultCurve c.red && isDefaultCurve c.green &&
    isDefaultCurve c.blue

/-- `Object.values(hsl).some(c => c.h !== 0 || c.s !== 0 || c.l !== 0)`. -/
def hslNonZero (f : HSLFilters) : Bool :=
  [f.red, f.orange, f.yellow, f.green, f.aqua, f.blue, f.purple, f.magenta].any
    fun c => c.h != 0 || c.s != 0 || c.l != 0

/-- The rest-destructured pixel-level filters paired with their
`initialFilters` values, in key order. -/
def pixelFilterPairs (f : BasicFilters) : List (ℚ × ℚ) :=
  [(f.exposure, 0), (f.highlights, 0), (f.shadows, 0), (f.whites, 0), (f.blacks, 0),
   (f.temperature, 0), (f.vibrance, 0), (f.sharpen, 0), (f.dehaze, 0), (f.grain, 0),
   (f.haze, 0), (f.hazeSpread, 50)]

/-- `v !== initialFilters[Object.keys(pixelFilters).find(k => pixelFilters[k] === v)]`:
look up the first key holding the value `v` and compare `v` against that
key's initial value (an absent key compares unequal). -/
def pairMismatch (pairs : List (ℚ × ℚ)) (v : ℚ) : Bool :=
  match pairs.find? fun q => q.1 == v with
  | some q => v != q.2
  | none => true

/-- The `needsPixelManipulation` test of `getAdjustmentsCss`. -/
def needsPixelManipulation (a : Adjustments) : Bool :=
  ((pixelFilterPairs a.filters).any fun q => pairMismatch (pixelFilterPairs a.filters) q.1)
    || !curvesAreDefault a.curves || hslNonZero a.hsl

/-- Modelled from the spec: the canvas `filter` string
`brightness(B%) contrast(C%) saturate(S%) sepia(P%)` is executed by the
rendering surface, which is outside the repository; §4.7 admits any standard
formulation for this stage.  This uses the CSS Filter Effects formulas
(linear brightness, pivoted contrast, luminance-matrix saturate, sepia
matrix interpolation), composed in real arithmetic with one final 8-bit
store. -/
noncomputable def cssFilter (img : Img) (brightness contrast saturation sepia : ℚ) : Img :=
  let bq : ℝ := (brightness : ℝ) / 100
  let cq : ℝ := (contrast : ℝ) / 100
  let sq : ℝ := (saturation : ℝ) / 100
  let pq : ℝ := (sepia : ℝ) / 100
  { img with data := img.data.map fun p =>
      let r0 : ℝ := p.r * bq
      let g0 : ℝ := p.g * bq
      let b0 : ℝ := p.b * bq
      let r1 := (r0 - 255/2) * cq + 255/2
      let g1 := (g0 - 255/2) * cq + 255/2
      let b1 := (b0 - 255/2) * cq + 255/2
      let r2 := (213/1000 + 787/1000 * sq) * r1 + (715/1000 - 715/1000 * sq) * g1 +
        (72/1000 - 72/1000 * sq) * b1
      let g2 := (213/1000 - 213/1000 * sq) * r1 + (715/1000 + 285/1000 * sq) * g1 +
        (72/1000 - 72/1000 * sq) * b1
      let b2 := (213/1000 - 213/1000 * sq) * r1 + (715/1000 - 715/1000 * sq) * g1 +
        (72/1000 + 928/1000 * sq) * b1
      let ω : ℝ := 1 - pq
      let r3 := (393/1000 + 607/1000 * ω) * r2 + (769/1000 - 769/1000 * ω) * g2 +
        (189/1000 - 189/1000 * ω) * b2
      let g3 := (349/1000 - 349/1000 * ω) * r2 + (686/1000 + 314/1000 * ω) * g2 +
        (168/1000 - 168/1000 * ω) * b2
      let b3 := (272/1000 - 272/1000 * ω) * r2 + (534/1000 - 534/1000 * ω) * g2 +
        (131/1000 + 869/1000 * ω) * b2
      ⟨u8store r3, u8store g3, u8store b3, p.a⟩ }

/-- The `needsPixelManipulation` block of `drawCanvas`: the guarded
pixel-level stage chain, in source order, over the CSS-filtered image. -/
noncomputable def adjustedImage (a : Adjustments) (noise : ℕ → ℝ) (img : Img) : Img :=
  let base := cssFilter img a.filters.brightness a.filters.contrast a.filters.saturation
    a.filters.sepia
  if needsPixelManipulation a then
    let i1 := if a.filters.exposure ≠ 0 then applyExposure base a.filters.exposure else base
    let i2 := if a.filters.temperature ≠ 0 then applyTemperature i1 a.filters.temperature else i1
    let i3 := if a.filters.vibrance ≠ 0 then applyVibrance i2 a.filters.vibrance else i2
    let i4 := if a.filters.dehaze ≠ 0 then applyDehaze i3 a.filters.dehaze else i3
    let i5 := if a.filters.highlights ≠ 0 ∨ a.filters.shadows ≠ 0 then
      applyHighlightsShadows i4 a.filters.highlights a.filters.shadows else i4
    let i6 := if a.filters.whites ≠ 0 ∨ a.filters.blacks ≠ 0 then
      applyWhitesBlacks i5 a.filters.whites a.filters.blacks else i5
    let i7 := if ¬ curvesAreDefault a.curves then applyCurves i6 a.curves else i6
    let i8 := if hslNonZero a.hsl then applyHsl i7 a.hsl else i7
    let i9 := if 0 < a.filters.haze then applyHaze i8 a.filters.haze a.filters.hazeSpread else i8
    let i10 := if 0 < a.filters.sharpen then applySharpen i9 a.filters.sharpen else i9
    if 0 < a.filters.grain then applyGrain i10 a.filters.grain noise else i10
  else base

/-! ### Layer-mask compositing (canvas semantics)

The compositing stage of `drawCanvas` runs on 2D canvases.  Canvas pixels are
modelled with exact rational channels normalized to [0,1]; `drawImage` of an
equal-size surface onto a blank canvas reproduces the surface, and the blend
and Porter-Duff modes (`lighten`, `xor`, `destination-in`, `source-over`)
follow the W3C compositing formulas on non-premultiplied colors. -/

/-- A canvas pixel: rational RGBA, normalized to [0,1]. -/
structure QPix where
  r : ℚ
  g : ℚ
  b : ℚ
  a : ℚ
deriving DecidableEq, Repr

/-- A canvas surface. -/
structure QImg where
  w : ℕ
  h : ℕ
  data : List QPix
deriving DecidableEq, Repr

/-- View an 8-bit buffer as a canvas surface. -/
def toQ (img : Img) : QImg :=
  ⟨img.w, img.h, img.data.map fun p => ⟨(p.r : ℚ) / 255, (p.g : ℚ) / 255, (p.b : ℚ) / 255, (p.a : ℚ) / 255⟩⟩

/-- Read canvas pixel `i` (out of range is transparent black). -/
def qpixAt (img : QImg) (i : ℕ) : QPix := img.data.getD i ⟨0, 0, 0, 0⟩

/-- `drawImage(surf, 0, 0)` onto a blank `w×h` canvas: the surface lands at
the top-left at its natural size; pixels outside its extent stay
transparent (so a smaller mask is padded and a larger one is clipped). -/
def drawSurface (w h : ℕ) (surf : QImg) : QImg :=
  ⟨w, h, (List.range (h * w)).map fun i =>
    let x := i % w
    let y := i / w
    if x < surf.w ∧ y < surf.h then qpixAt surf (y * surf.w + x) else ⟨0, 0, 0, 0⟩⟩

/-- Fill-white with `globalCompositeOperation = 'xor'` (the per-layer mask
inversion): Porter-Duff XOR against an opaque white source. -/
def xorWhite (p : QPix) : QPix :=
  let ao := 1 - p.a
  if ao = 0 then ⟨0, 0, 0, 0⟩ else ⟨1, 1, 1, ao⟩

/-- The `lighten` blend mode under source-over alpha compositing. -/
def lightenBlend (cb cs : QPix) : QPix :=
  let ao := cs.a + cb.a * (1 - cs.a)
  let mix : ℚ → ℚ → ℚ := fun b s =>
    cs.a * ((1 - cb.a) * s + cb.a * max b s) + cb.a * b * (1 - cs.a)
  if ao = 0 then ⟨0, 0, 0, 0⟩
  else ⟨mix cb.r cs.r / ao, mix cb.g cs.g / ao, mix cb.b cs.b / ao, ao⟩

/-- Porter-Duff `destination-in`. -/
def destIn (dst src : QPix) : QPix := ⟨dst.r, dst.g, dst.b, dst.a * src.a⟩

/-- Porter-Duff `source-over`. -/
def srcOver (dst src : QPix) : QPix :=
  let ao := src.a + dst.a * (1 - src.a)
  if ao = 0 then ⟨0, 0, 0, 0⟩
  else ⟨(src.r * src.a + dst.r * dst.a * (1 - src.a)) / ao,
        (src.g * src.a + dst.g * dst.a * (1 - src.a)) / ao,
        (src.b * src.a + dst.b * dst.a * (1 - src.a)) / ao, ao⟩

/-- Apply a per-pixel compositing operation of `src` onto `dst` over the
destination canvas's extent. -/
def blendSurf (f : QPix → QPix → QPix) (dst src : QImg) : QImg :=
  ⟨dst.w, dst.h, (List.range (dst.h * dst.w)).map fun i => f (qpixAt dst i) (qpixAt src i)⟩

/-- A mask layer (`maskSrc` is the decoded mask surface when present). -/
structure Layer where
  isVisible : Bool
  maskSrc : Option QImg
  isMaskInverted : Bool
deriving DecidableEq, Repr

/-- The visible layers that carry a mask
(`layers.filter(l => l.isVisible && l.maskSrc)`). -/
def visibleMasked (layers : List Layer) : List Layer :=
  layers.filter fun l => l.isVisible && l.maskSrc.isSome

/-- The per-layer mask surface: the mask drawn at the origin of a base-sized
temp canvas, then inverted in place by a white XOR fill when requested. -/
def layerSurface (w h : ℕ) (l : Layer) : QImg :=
  let temp := drawSurface w h (l.maskSrc.getD ⟨0, 0, []⟩)
  if l.isMaskInverted then ⟨temp.w, temp.h, temp.data.map xorWhite⟩ else temp

/-- The composite mask canvas: opaque black, then every visible mask
combined in list order with `lighten`. -/
def compositeMask (w h : ℕ) (layers : List Layer) : QImg :=
  (visibleMasked layers).foldl
    (fun acc l => blendSurf lightenBlend acc (layerSurface w h l))
    ⟨w, h, List.replicate (h * w) ⟨0, 0, 0, 1⟩⟩

/-- The compositing stage of `drawCanvas`: without visible masks the
adjusted image is the output; otherwise the adjusted image is kept by the
composite mask (`destination-in`) and drawn over the unadjusted base. -/
def compositeStage (base adjusted : QImg) (layers : List Layer) : QImg :=
  if visibleMasked layers = [] then adjusted
  else
    let mask := compositeMask base.w base.h layers
    let finalLayer := blendSurf destIn adjusted mask
    blendSurf srcOver base finalLayer

/-- The full `drawCanvas` model: CSS pass and guarded pixel stages, then
the compositing stage. -/
noncomputable def drawCanvas (a : Adjustments) (layers : List Layer) (noise : ℕ → ℝ)
    (img : Img) : QImg :=
  compositeStage (toQ img) (toQ (adjustedImage a noise img)) layers

/-- Errors of §7 of the spec. -/
inductive CompositeError where
  | dimensionMismatch
deriving DecidableEq, Repr

/-- Some visible layer's mask disagrees with the base dimensions. -/
def hasDimensionMismatch (base : QImg) (layers : List Layer) : Prop :=
  ∃ l ∈ visibleMasked layers, ∃ m, l.maskSrc = some m ∧ (m.w ≠ base.w ∨ m.h ≠ base.h)

instance (base : QImg) (layers : List Layer) :
    Decidable (hasDimensionMismatch base layers) := by
  unfold hasDimensionMismatch
  infer_instance

/-- The compositing stage as an error-aware computation.  The source has no
dimension check and no throw on the mask path, so this always succeeds with
the total compositing result. -/
def compositeStageE (base adjusted : QImg) (layers : List Layer) :
    Except CompositeError QImg :=
  Except.ok (compositeStage base adjusted layers)

/-- Modelled from the spec: §7 demands that a mask whose dimensions differ
from the base image's fail fast with a `DimensionMismatch` error before
compositing.  This checking front-end is absent from the source. -/
def compositeStageSpec (base adjusted : QImg) (layers : List Layer) :
    Except CompositeError QImg :=
  if hasDimensionMismatch base layers then Except.error CompositeError.dimensionMismatch
  else Except.ok (compositeStage base adjusted layers)

/-! ### Histogram analyzer -/

/-- `Math.round` on rationals (JS rounds half toward positive infinity). -/
def jsRoundQ (v : ℚ) : ℤ := ⌊v + 1/2⌋

/-- The luma bin `Math.round(0.299 R + 0.587 G + 0.114 B)`. -/
def lumaBin (p : Pix) : ℕ :=
  (jsRoundQ ((p.r * 299 + p.g * 587 + p.b * 114 : ℚ) / 1000)).toNat

/-- Increment entry `i` of a count array. -/
def bumpCount (l : List ℕ) (i : ℕ) : List ℕ := l.set i (l.getD i 0 + 1)

/-- The 256-bin count array of one derived channel. -/
def histCounts (data : List Pix) (ch : Pix → ℕ) : List ℕ :=
  data.foldl (fun acc p => bumpCount acc (ch p)) (List.replicate 256 0)

/-- `normalize`: scale so the maximum entry becomes 255, or return the
counts unchanged when the maximum is 0. -/
def normalizeHist (hist : List ℕ) : List ℚ :=
  let maxVal := hist.foldr max 0
  if maxVal = 0 then hist.map fun v : ℕ => (v : ℚ)
  else hist.map fun v : ℕ => (v : ℚ) * (255 / (maxVal : ℚ))

/-- The four normalized histogram channels. -/
structure HistogramData where
  rgb : List ℚ
  red : List ℚ
  green : List ℚ
  blue : List ℚ
deriving DecidableEq, Repr

/-- `calculateHistogram`. -/
def calculateHistogram (data : List Pix) : HistogramData :=
  { rgb := normalizeHist (histCounts data lumaBin),
    red := normalizeHist (histCounts data Pix.r),
    green := normalizeHist (histCounts data Pix.g),
    blue := normalizeHist (histCounts data Pix.b) }

/-! ### Helper lemmas -/

theorem mem_mapIdx_ex {α β : Type _} {f : ℕ → α → β} {l : List α} {b : β}
    (hb : b ∈ l.mapIdx f) : ∃ i a, a ∈ l ∧ b = f i a := by
  rw [List.mapIdx_eq_enum_map] at hb
  obtain ⟨⟨i, a⟩, hmem, rfl⟩ := List.mem_map.1 hb
  have hg := List.mem_enum_iff_getElem?.1 hmem
  exact ⟨i, a, List.get?_mem (by simpa [List.get?_eq_getElem?] using hg), rfl⟩

theorem validImg_applyExposure {img : Img} (hv : ValidImg img) (amount : ℚ) :
    ValidImg (applyExposure img amount) := by
  unfold applyExposure
  split_ifs with h
  · exact hv
  · intro p hp
    obtain ⟨q, hq, rfl⟩ := List.mem_map.1 hp
    exact ⟨u8store_le _, u8store_le _, u8store_le _, (hv q hq).2.2.2⟩

theorem validImg_applyTemperature {img : Img} (hv : ValidImg img) (t : ℚ) :
    ValidImg (applyTemperature img t) := by
  unfold applyTemperature
  dsimp only
  split_ifs with h
  · exact hv
  · intro p hp
    obtain ⟨q, hq, rfl⟩ := List.mem_map.1 hp
    exact ⟨u8store_le _, (hv q hq).2.1, u8store_le _, (hv q hq).2.2.2⟩

theorem validImg_applyVibrance {img : Img} (hv : ValidImg img) (amount : ℚ) :
    ValidImg (applyVibrance img amount) := by
  unfold applyVibrance
  dsimp only
  split_ifs with h
  · exact hv
  · intro p hp
    obtain ⟨q, hq, rfl⟩ := List.mem_map.1 hp
    split_ifs with h1 h2
    · exact hv q hq
    · exact hv q hq
    · exact ⟨u8store_le _, u8store_le _, u8store_le _, (hv q hq).2.2.2⟩

theorem validImg_applyDehaze {img : Img} (hv : ValidImg img) (amount : ℚ) :
    ValidImg (applyDehaze img amount) := by
  unfold applyDehaze
  split_ifs with h
  · exact hv
  · intro p hp
    obtain ⟨q, hq, rfl⟩ := List.mem_map.1 hp
    exact ⟨u8store_le _, u8store_le _, u8store_le _, (hv q hq).2.2.2⟩

theorem validImg_applyHighlightsShadows {img : Img} (hv : ValidImg img) (hi sh : ℚ) :
    ValidImg (applyHighlightsShadows img hi sh) := by
  unfold applyHighlightsShadows
  dsimp only
  split_ifs with h
  · exact hv
  · intro p hp
    obtain ⟨q, hq, rfl⟩ := List.mem_map.1 hp
    exact ⟨u8store_le _, u8store_le _, u8store_le _, (hv q hq).2.2.2⟩

theorem validImg_applyWhitesBlacks {img : Img} (hv : ValidImg img) (wh bl : ℚ) :
    ValidImg (applyWhitesBlacks img wh bl) := by
  unfold applyWhitesBlacks
  split_ifs with h
  · exact hv
  · intro p hp
    obtain ⟨q, hq, rfl⟩ := List.mem_map.1 hp
    exact ⟨u8store_le _, u8store_le _, u8store_le _, (hv q hq).2.2.2⟩

theorem validImg_applyCurves {img : Img} (hv : ValidImg img) (cs : CurvesState) :
    ValidImg (applyCurves img cs) := by
  unfold applyCurves
  intro p hp
  obtain ⟨i, q, hq, rfl⟩ := mem_mapIdx_ex hp
  exact ⟨u8store_le _, u8store_le _, u8store_le _, (hv q hq).2.2.2⟩

theorem validImg_applyHsl {img : Img} (hv : ValidImg img) (f : HSLFilters) :
    ValidImg (applyHsl img f) := by
  unfold applyHsl
  intro p hp
  obtain ⟨q, hq, rfl⟩ := List.mem_map.1 hp
  exact ⟨u8store_le _, u8store_le _, u8store_le _, (hv q hq).2.2.2⟩

theorem validImg_applyHaze {img : Img} (hv : ValidImg img) (amount spread : ℚ) :
    ValidImg (applyHaze img amount spread) := by
  unfold applyHaze
  split_ifs with h
  · exact hv
  · intro p hp
    obtain ⟨i, q, hq, rfl⟩ := mem_mapIdx_ex hp
    exact ⟨u8store_le _, u8store_le _, u8store_le _, (hv q hq).2.2.2⟩

theorem validImg_applySharpen {img : Img} (hv : ValidImg img) (amount : ℚ) :
    ValidImg (applySharpen img amount) := by
  unfold applySharpen
  dsimp only
  split_ifs with h
  · exact hv
  · intro p hp
    obtain ⟨i, q, hq, rfl⟩ := mem_mapIdx_ex hp
    split_ifs with h1
    · exact ⟨u8store_le _, u8store_le _, u8store_le _, (hv q hq).2.2.2⟩
    · exact hv q hq

theorem validImg_applyGrain {img : Img} (hv : ValidImg img) (amount : ℚ) (noise : ℕ → ℝ) :
    ValidImg (applyGrain img amount noise) := by
  unfold applyGrain
  split_ifs with h
  · exact hv
  · intro p hp
    obtain ⟨i, q, hq, rfl⟩ := mem_mapIdx_ex hp
    exact ⟨u8store_le _, u8store_le _, u8store_le _, (hv q hq).2.2.2⟩

/-! ### Claim C9 -/

/-- C9: every pixel operator of the pipeline (exposure, temperature,
vibrance, dehaze, highlights/shadows, whites/blacks, curves, selective HSL,
haze, sharpen, grain) produces channel values in [0,255] from any input
buffer whose channels are in [0,255], for all parameter values (in
particular for the documented parameter domains); channel arithmetic is
clamped and never wraps. -/
theorem operators_clamped (img : Img) (hv : ValidImg img) :
    (∀ amount, ValidImg (applyExposure img amount)) ∧
    (∀ t, ValidImg (applyTemperature img t)) ∧
    (∀ v, ValidImg (applyVibrance img v)) ∧
    (∀ d, ValidImg (applyDehaze img d)) ∧
    (∀ hi sh, ValidImg (applyHighlightsShadows img hi sh)) ∧
    (∀ wh bl, ValidImg (applyWhitesBlacks img wh bl)) ∧
    (∀ cs, ValidImg (applyCurves img cs)) ∧
    (∀ f, ValidImg (applyHsl img f)) ∧
    (∀ am sp, ValidImg (applyHaze img am sp)) ∧
    (∀ s, ValidImg (applySharpen img s)) ∧
    (∀ g noise, ValidImg (applyGrain img g noise)) :=
  ⟨fun _ => validImg_applyExposure hv _, fun _ => validImg_applyTemperature hv _,
   fun _ => validImg_applyVibrance hv _, fun _ => validImg_applyDehaze hv _,
   fun _ _ => validImg_applyHighlightsShadows hv _ _,
   fun _ _ => validImg_applyWhitesBlacks hv _ _, fun _ => validImg_applyCurves hv _,
   fun _ => validImg_applyHsl hv _, fun _ _ => validImg_applyHaze hv _ _,
   fun _ => validImg_applySharpen hv _, fun _ _ => validImg_applyGrain hv _ _⟩

/-- A concrete 2×2 mid-gray buffer. -/
def testImg : Img :=
  ⟨2, 2, [⟨128, 128, 128, 255⟩, ⟨128, 128, 128, 255⟩, ⟨128, 128, 128, 255⟩,
    ⟨128, 128, 128, 255⟩]⟩

/-- Witness for C9 at a concrete valid buffer and concrete parameters. -/
theorem operators_clamped_witness :
    ValidImg testImg ∧ ValidImg (applyExposure testImg 50) ∧
      ValidImg (applyHsl testImg initialHSL) :=
  have hv : ValidImg testImg := by decide
  ⟨hv, (operators_clamped testImg hv).1 50,
    ((operators_clamped testImg hv).2.2.2.2.2.2.2.1) initialHSL⟩

/-! ### Claim C10 -/

theorem windowIdxs_self_mem (w r x : ℕ) (hx : x < w) : x ∈ windowIdxs w r x := by
  unfold windowIdxs
  refine List.mem_map.2 ⟨r, List.mem_filter.2 ⟨List.mem_range.2 (by omega), ?_⟩, by omega⟩
  simp only [decide_eq_true_eq]
  omega

/-- C10: `boxBlur` is total for every image with positive dimensions and
every radius, even radii at least the image extent: in both the horizontal
and the vertical pass every averaging window contains at least its centre
sample, so every per-window division has a count of at least 1, and the
output buffer covers all `h·w` pixels. -/
theorem boxBlur_window_nonempty (img : Img) (r x y : ℕ) (hx : x < img.w) (hy : y < img.h) :
    1 ≤ (windowIdxs img.w r x).length ∧ 1 ≤ (windowIdxs img.h r y).length ∧
      (boxBlur img r).data.length = img.h * img.w := by
  refine ⟨List.length_pos_of_mem (windowIdxs_self_mem _ r _ hx),
    List.length_pos_of_mem (windowIdxs_self_mem _ r _ hy), ?_⟩
  simp [boxBlur, blurPass]

/-- Witness for C10 with a window radius exceeding the image size. -/
theorem boxBlur_window_nonempty_witness :
    1 ≤ (windowIdxs testImg.w 10 0).length ∧ 1 ≤ (windowIdxs testImg.h 10 1).length ∧
      (boxBlur testImg 10).data.length = testImg.h * testImg.w :=
  boxBlur_window_nonempty testImg 10 0 1 (by decide) (by decide)

/-! ### LUT indexing lemmas -/

/-- The segment index carried by the LUT fill loop after processing
positions `i .. i+k`, starting from state `p`. -/
def stateAt (s : Curve) (n : ℕ) (i p : ℕ) : ℕ → ℕ
  | 0 => advIdx s n (i : ℚ) n p
  | k + 1 => advIdx s n ((i + k + 1 : ℕ) : ℚ) n (stateAt s n i p k)

theorem stateAt_shift (s : Curve) (n i p k : ℕ) :
    stateAt s n i p (k + 1) = stateAt s n (i + 1) (advIdx s n (i : ℚ) n p) k := by
  induction k with
  | zero => simp [stateAt]
  | succ k ih =>
    rw [show stateAt s n i p (k + 1 + 1) =
      advIdx s n ((i + (k + 1) + 1 : ℕ) : ℚ) n (stateAt s n i p (k + 1)) from rfl, ih]
    rw [show stateAt s n (i + 1) (advIdx s n (i : ℚ) n p) (k + 1) =
      advIdx s n ((i + 1 + k + 1 : ℕ) : ℚ) n
        (stateAt s n (i + 1) (advIdx s n (i : ℚ) n p) k) from rfl]
    norm_num
    ring_nf

theorem lutLoop_length (s : Curve) (n : ℕ) (m : ℕ → ℝ) :
    ∀ fuel i p, (lutLoop s n m fuel i p).length = fuel := by
  intro fuel
  induction fuel with
  | zero => intro i p; rfl
  | succ fuel ih => intro i p; simp [lutLoop, ih]

theorem lutLoop_get? (s : Curve) (n : ℕ) (m : ℕ → ℝ) :
    ∀ fuel k i p, k < fuel →
      (lutLoop s n m fuel i p).get? k =
        some (clamp255 (lutEntry s m (i + k) (stateAt s n i p k))) := by
  intro fuel
  induction fuel with
  | zero => omega
  | succ fuel ih =>
    intro k i p hk
    cases k with
    | zero => simp [lutLoop, stateAt]
    | succ k =>
      have : (lutLoop s n m (fuel + 1) i p).get? (k + 1) =
          (lutLoop s n m fuel (i + 1) (advIdx s n (i : ℚ) n p)).get? k := by
        simp [lutLoop]
      rw [this, ih k (i + 1) (advIdx s n (i : ℚ) n p) (by omega), stateAt_shift]
      norm_num
      ring_nf

/-! ### The default curve's LUT (claim C4) -/

theorem sortedPoints_initialCurve : sortedPoints initialCurve = initialCurve := by decide

theorem ptX_initialCurve_0 : ptX initialCurve 0 = 0 := by
  simp [ptX, initialCurve]

theorem ptX_initialCurve_1 : ptX initialCurve 1 = 255 := by
  simp [ptX, initialCurve]

theorem ptY_initialCurve_0 : ptY initialCurve 0 = 0 := by
  simp [ptY, initialCurve]

theorem ptY_initialCurve_1 : ptY initialCurve 1 = 255 := by
  simp [ptY, initialCurve]

theorem segDx_initialCurve : segDx initialCurve 0 = 255 := by
  rw [segDx, ptX_initialCurve_1, ptX_initialCurve_0]
  norm_num

theorem segDelta_initialCurve : segDelta initialCurve 0 = 1 := by
  rw [segDelta, if_neg (by rw [segDx_initialCurve]; norm_num), segDx_initialCurve,
    ptY_initialCurve_1, ptY_initialCurve_0]
  norm_num

theorem mInit_initialCurve_0 : mInit (segDelta initialCurve) 2 0 = 1 := by
  unfold mInit
  rw [if_pos rfl, segDelta_initialCurve]
  norm_num

theorem mInit_initialCurve_1 : mInit (segDelta initialCurve) 2 1 = 1 := by
  unfold mInit
  norm_num [segDelta_initialCurve]

theorem sqrt_two_le_three : Real.sqrt 2 ≤ 3 := by
  rw [show (3 : ℝ) = Real.sqrt 9 by
      rw [show (9 : ℝ) = 3 ^ 2 by norm_num, Real.sqrt_sq (by norm_num : (0 : ℝ) ≤ 3)]]
  exact Real.sqrt_le_sqrt (by norm_num)

theorem mFinal_initialCurve : mFinal (segDelta initialCurve) 2 = mInit (segDelta initialCurve) 2 := by
  unfold mFinal
  rw [show (2 : ℕ) - 1 = 1 from rfl,
    show List.range 1 = [0] by rw [List.range_succ, List.range_zero]; rfl,
    List.foldl_cons, List.foldl_nil]
  unfold fixStep
  rw [if_neg (by rw [segDelta_initialCurve]; norm_num)]
  dsimp only
  rw [mInit_initialCurve_0, mInit_initialCurve_1, segDelta_initialCurve]
  norm_num
  intro h
  exact absurd h (not_lt.2 sqrt_two_le_three)

theorem advIdx_two (s : Curve) (i : ℚ) : ∀ fuel, advIdx s 2 i fuel 0 = 0 := by
  intro fuel
  cases fuel with
  | zero => rfl
  | succ fuel => simp [advIdx]

theorem stateAt_two (s : Curve) (i k : ℕ) : stateAt s 2 i 0 k = 0 := by
  induction k with
  | zero => exact advIdx_two s i 2
  | succ k ih => rw [stateAt, ih]; exact advIdx_two s _ 2

theorem lutEntry_initialCurve (m : ℕ → ℝ) (hm0 : m 0 = 1) (hm1 : m 1 = 1) (k : ℕ) :
    lutEntry initialCurve m k 0 = k := by
  unfold lutEntry
  rw [segDx_initialCurve, ptX_initialCurve_0, ptY_initialCurve_0, ptY_initialCurve_1,
    hm0, hm1]
  dsimp only
  rw [if_pos (by norm_num : (1 / 10000000 : ℚ) < 255)]
  push_cast
  field_simp
  ring

theorem createLut_initialCurve_eq :
    createLutFromPoints initialCurve =
      (lutLoop initialCurve 2 (mFinal (segDelta initialCurve) 2) 256 0 0).set 255
        ((ptY initialCurve 1 : ℚ) : ℝ) := by
  unfold createLutFromPoints
  rw [sortedPoints_initialCurve]
  norm_num [initialCurve]

theorem defaultLut_get (k : ℕ) (hk : k ≤ 255) :
    (createLutFromPoints initialCurve).get? k = some ((k : ℝ)) := by
  rw [createLut_initialCurve_eq]
  have hm0 : mFinal (segDelta initialCurve) 2 0 = 1 := by
    rw [mFinal_initialCurve, mInit_initialCurve_0]
  have hm1 : mFinal (segDelta initialCurve) 2 1 = 1 := by
    rw [mFinal_initialCurve, mInit_initialCurve_1]
  rcases eq_or_lt_of_le hk with heq | hlt
  · subst heq
    rw [List.get?_set_eq_of_lt _ (by rw [lutLoop_length]; omega)]
    rw [ptY_initialCurve_1]
    norm_num
  · rw [List.get?_set_ne _ _ (by omega)]
    rw [lutLoop_get? initialCurve 2 _ 256 k 0 0 (by omega), stateAt_two,
      lutEntry_initialCurve _ hm0 hm1,
      clamp255_of_mem (by positivity) (by exact_mod_cast (show 0 + k ≤ 255 by omega))]
    norm_num

/-- C4: `createLutFromPoints` applied to the default curve
`[(0,0),(255,255)]` is exactly the identity table: `lut[i] = i` for every
index in [0,255]. -/
theorem default_curve_identity_lut (i : Fin 256) :
    (createLutFromPoints initialCurve).get? i.val = some ((i.val : ℝ)) :=
  defaultLut_get i.val (by omega)

/-! ### Claim C7: the 128 ↦ 200 curve scenario -/

/-- The scenario curve. -/
def curve7 : Curve := [(0, 0), (128, 200), (255, 255)]

/-- The scenario `CurvesState`: the curve on the rgb channel, the other
channel curves default. -/
def curves7 : CurvesState :=
  { rgb := curve7, red := initialCurve, green := initialCurve, blue := initialCurve }

theorem sortedPoints_curve7 : sortedPoints curve7 = curve7 := by decide

theorem lut7_get_128 : (createLutFromPoints curve7).get? 128 = some (200 : ℝ) := by
  unfold createLutFromPoints
  rw [sortedPoints_curve7]
  dsimp only
  rw [show curve7.length = 3 from rfl,
    if_neg (by norm_num : ¬((3 : ℕ) = 0)), if_neg (by norm_num : ¬((3 : ℕ) = 1)),
    List.get?_set_ne _ _ (by omega),
    lutLoop_get? curve7 3 _ 256 128 0 0 (by omega),
    show stateAt curve7 3 0 0 128 = 0 by set_option maxRecDepth 20000 in decide]
  unfold lutEntry
  dsimp only
  rw [show segDx curve7 0 = 128 by simp [segDx, ptX, curve7],
    show ptX curve7 0 = 0 by simp [ptX, curve7],
    show ptY curve7 0 = 0 by simp [ptY, curve7],
    show ptY curve7 1 = 200 by simp [ptY, curve7],
    if_pos (by norm_num : (1 / 10000000 : ℚ) < 128)]
  have ht : (((0 + 128 : ℕ) : ℝ) - ((0 : ℚ) : ℝ)) / ((128 : ℚ) : ℝ) = 1 := by
    push_cast; norm_num
  rw [ht]
  rw [show ∀ m0 m1 : ℝ, (2 * (1 * 1 * 1) - 3 * (1 * 1) + 1) * ((0 : ℚ) : ℝ) +
      (1 * 1 * 1 - 2 * (1 * 1) + 1) * m0 + (-2 * (1 * 1 * 1) + 3 * (1 * 1)) * ((200 : ℚ) : ℝ) +
      (1 * 1 * 1 - 1 * 1) * m1 = 200 from fun m0 m1 => by push_cast; ring]
  rw [clamp255_of_mem (by norm_num) (by norm_num)]

theorem bayerAt_lt (y x : ℕ) : bayerAt y x < 64 := by
  have hy : y % 8 < 8 := Nat.mod_lt _ (by norm_num)
  have hx : x % 8 < 8 := Nat.mod_lt _ (by norm_num)
  have H : ∀ a, a < 8 → ∀ b, b < 8 → (bayerMatrix.getD a []).getD b 0 < 64 := by decide
  exact H _ hy _ hx

/-- A dithered index of an exact 8-bit value rounds back to that value:
the Bayer offset lies in [-1/2, 1/2). -/
theorem lutIdx_dither (v : ℕ) (hv : v ≤ 255) (n : ℕ) (hn : n < 64) :
    lutIdx ((v : ℝ) + ((n : ℝ) / 64 - 1 / 2)) = (v : ℤ) := by
  have hn63 : (n : ℝ) ≤ 63 := by exact_mod_cast Nat.lt_succ_iff.mp hn
  have hn0 : (0 : ℝ) ≤ (n : ℝ) / 64 := by positivity
  have hvle : (v : ℝ) ≤ 255 := by exact_mod_cast hv
  have hv0 : (0 : ℝ) ≤ (v : ℝ) := by positivity
  set x : ℝ := (v : ℝ) + ((n : ℝ) / 64 - 1 / 2) with hxdef
  have hxlow : (v : ℝ) - 1 / 2 ≤ x := by rw [hxdef]; linarith
  have hxhigh : x < (v : ℝ) + 1 / 2 := by rw [hxdef]; linarith
  have hclow : (v : ℝ) - 1 / 2 ≤ clamp255 x := by
    unfold clamp255
    have h1 : (v : ℝ) - 1 / 2 ≤ min 255 x := le_min (by linarith) hxlow
    exact h1.trans (le_max_right _ _)
  have hchigh : clamp255 x < (v : ℝ) + 1 / 2 := by
    unfold clamp255
    rcases le_or_lt 0 x with h | h
    · exact lt_of_le_of_lt (max_le (by linarith) (min_le_right _ _)) hxhigh
    · rw [min_eq_right (by linarith), max_eq_left (by linarith)]
      linarith
  unfold lutIdx jsRound
  exact Int.floor_eq_iff.2 ⟨by push_cast; linarith, by push_cast; linarith⟩

theorem getD_mapIdx {α β : Type _} {f : ℕ → α → β} {l : List α} {i : ℕ} {a : α}
    (h : l.get? i = some a) (d : β) : (l.mapIdx f).getD i d = f i a := by
  obtain ⟨hi, hget⟩ := List.get?_eq_some.1 h
  have h2 : (l.mapIdx f).get? i =
      some ((l.mapIdx f).get ⟨i, by simpa [List.length_mapIdx] using hi⟩) :=
    List.get?_eq_get _
  simp only [List.getD, h2, Option.getD_some]
  rw [List.get_mapIdx l f i hi, hget]

theorem lutGet_natCast {lut : List ℝ} {k : ℕ} {v : ℝ} (h : lut.get? k = some v) :
    lutGet lut (k : ℤ) = v := by
  unfold lutGet
  rw [Int.toNat_natCast]
  have h' : lut[k]? = some v := by rw [← List.get?_eq_getElem?]; exact h
  simp [List.getD, h']

/-- C7: the LUT built from `[(0,0),(128,200),(255,255)]` maps index 128 to
exactly 200, and `applyCurves` with this curve as the rgb curve (channel
curves default) maps every channel value 128 to output 200 at every pixel
position, the per-pixel ordered-dither offset notwithstanding. -/
theorem curve_scenario_128_to_200 (img : Img) (i : ℕ) (p : Pix)
    (hp : img.data.get? i = some p) :
    (createLutFromPoints curves7.rgb).get? 128 = some (200 : ℝ) ∧
    (p.r = 128 → (pixAt (applyCurves img curves7) i).r = 200) ∧
    (p.g = 128 → (pixAt (applyCurves img curves7) i).g = 200) ∧
    (p.b = 128 → (pixAt (applyCurves img curves7) i).b = 200) := by
  have hdef : isDefaultCurve initialCurve = true := by decide
  have hb := bayerAt_lt (i / img.w) (i % img.w)
  have h1 := lutIdx_dither 128 (by norm_num) (bayerAt (i / img.w) (i % img.w)) hb
  have h2 := lutGet_natCast (defaultLut_get 128 (by norm_num))
  have h3 := lutGet_natCast lut7_get_128
  have h4 : u8store ((200 : ℝ)) = 200 := by
    rw [show (200 : ℝ) = ((200 : ℕ) : ℝ) by norm_num]
    exact u8store_natCast (by norm_num)
  refine ⟨lut7_get_128, ?_, ?_, ?_⟩ <;> intro hch <;>
    · unfold pixAt applyCurves
      rw [getD_mapIdx hp]
      simp only [curves7, hdef, Bool.not_true, Bool.or_self, Bool.false_eq_true, if_false]
      rw [hch]
      rw [h1, h2, h1, h3, h4]

theorem curve_scenario_128_to_200_witness :
    (Img.mk 1 1 [Pix.mk 128 128 128 255]).data.get? 0 =
        some (Pix.mk 128 128 128 255) ∧
      (pixAt (applyCurves (Img.mk 1 1 [Pix.mk 128 128 128 255]) curves7) 0).r = 200 :=
  ⟨rfl, (curve_scenario_128_to_200 (Img.mk 1 1 [Pix.mk 128 128 128 255]) 0
    (Pix.mk 128 128 128 255) rfl).2.1 rfl⟩

/-! ### Claim C1: identity adjustments are a bit-for-bit no-op -/

theorem cssFilter_identity {img : Img} (hv : ValidImg img) :
    cssFilter img 100 100 100 0 = img := by
  unfold cssFilter
  cases img with
  | mk w h data =>
    simp only [Img.mk.injEq, true_and]
    refine (List.map_congr_left ?_).trans (List.map_id' data)
    intro p hp
    obtain ⟨hr, hg, hb, _⟩ := hv p hp
    cases p with
    | mk pr pg pb pa =>
      simp only [Pix.mk.injEq]
      refine ⟨?_, ?_, ?_, trivial⟩
      · convert u8store_natCast hr using 2
        push_cast
        ring
      · convert u8store_natCast hg using 2
        push_cast
        ring
      · convert u8store_natCast hb using 2
        push_cast
        ring

/-- C1: with `Adjustments` at their documented identity values (brightness =
contrast = saturation = 100, sepia = 0, all pixel-level sliders 0,
hazeSpread = 50, all HSL triples 0, all four curves default) and no visible
mask layer, the pipeline output is bit-for-bit the input buffer; the grain
stage is skipped at amount 0 and never runs. -/
theorem identity_pipeline_noop (img : Img) (layers : List Layer) (noise : ℕ → ℝ)
    (hv : ValidImg img) (hl : visibleMasked layers = []) :
    adjustedImage initialAdjustments noise img = img ∧
    drawCanvas initialAdjustments layers noise img = toQ img := by
  have hadj : adjustedImage initialAdjustments noise img = img := by
    unfold adjustedImage
    rw [if_neg (by decide : ¬(needsPixelManipulation initialAdjustments = true))]
    exact cssFilter_identity hv
  refine ⟨hadj, ?_⟩
  unfold drawCanvas compositeStage
  rw [if_pos hl, hadj]

/-- Witness for C1 at a concrete buffer with an invisible layer list. -/
theorem identity_pipeline_noop_witness :
    adjustedImage initialAdjustments (fun _ => 0) testImg = testImg ∧
    drawCanvas initialAdjustments [] (fun _ => 0) testImg = toQ testImg :=
  identity_pipeline_noop testImg [] (fun _ => 0) (by decide) rfl

/-! ### Claim C2: fixed stage order with identity skip guards -/

/-- The §4.7 contract: the CSS-equivalent pass first, then exposure,
temperature, vibrance, dehaze, highlights/shadows, whites/blacks, curves,
selective HSL, haze, sharpen and grain last, each stage skipped exactly
when its parameters equal their identity values. -/
noncomputable def stageComposition (a : Adjustments) (noise : ℕ → ℝ) (img : Img) : Img :=
  let base := cssFilter img a.filters.brightness a.filters.contrast a.filters.saturation
    a.filters.sepia
  let i1 := if a.filters.exposure = 0 then base else applyExposure base a.filters.exposure
  let i2 := if a.filters.temperature = 0 then i1 else applyTemperature i1 a.filters.temperature
  let i3 := if a.filters.vibrance = 0 then i2 else applyVibrance i2 a.filters.vibrance
  let i4 := if a.filters.dehaze = 0 then i3 else applyDehaze i3 a.filters.dehaze
  let i5 := if a.filters.highlights = 0 ∧ a.filters.shadows = 0 then i4
    else applyHighlightsShadows i4 a.filters.highlights a.filters.shadows
  let i6 := if a.filters.whites = 0 ∧ a.filters.blacks = 0 then i5
    else applyWhitesBlacks i5 a.filters.whites a.filters.blacks
  let i7 := if curvesAreDefault a.curves then i6 else applyCurves i6 a.curves
  let i8 := if hslNonZero a.hsl = false then i7 else applyHsl i7 a.hsl
  let i9 := if a.filters.haze = 0 then i8 else applyHaze i8 a.filters.haze a.filters.hazeSpread
  let i10 := if a.filters.sharpen = 0 then i9 else applySharpen i9 a.filters.sharpen
  if a.filters.grain = 0 then i10 else applyGrain i10 a.filters.grain noise

theorem pairMismatch_self_head {v init : ℚ} {rest : List (ℚ × ℚ)}
    (h : pairMismatch ((v, init) :: rest) v = false) : v = init := by
  unfold pairMismatch at h
  rw [List.find?_cons_of_pos _ (by simp)] at h
  simpa using h

theorem pairMismatch_zero_head {v : ℚ} {rest : List (ℚ × ℚ)} (hv : v ≠ 0)
    (h : pairMismatch (((0 : ℚ), (0 : ℚ)) :: rest) v = false) :
    pairMismatch rest v = false := by
  unfold pairMismatch at *
  rw [List.find?_cons_of_neg _ (by simpa using fun h' => hv h'.symm)] at h
  exact h

theorem needsPixel_eq_false {a : Adjustments} (h : needsPixelManipulation a = false) :
    a.filters.exposure = 0 ∧ a.filters.highlights = 0 ∧ a.filters.shadows = 0 ∧
    a.filters.whites = 0 ∧ a.filters.blacks = 0 ∧ a.filters.temperature = 0 ∧
    a.filters.vibrance = 0 ∧ a.filters.sharpen = 0 ∧ a.filters.dehaze = 0 ∧
    a.filters.grain = 0 ∧ a.filters.haze = 0 ∧
    curvesAreDefault a.curves = true ∧ hslNonZero a.hsl = false := by
  unfold needsPixelManipulation at h
  simp only [Bool.or_eq_false_iff, Bool.not_eq_false', List.any_eq_false] at h
  obtain ⟨⟨hany, hcurves⟩, hhsl⟩ := h
  have get : ∀ v i : ℚ, (v, i) ∈ pixelFilterPairs a.filters →
      pairMismatch (pixelFilterPairs a.filters) v = false := fun v i hm => by
    simpa using hany (v, i) hm
  have h1 : a.filters.exposure = 0 := by
    have hm := get a.filters.exposure 0 (by simp [pixelFilterPairs])
    unfold pixelFilterPairs at hm
    exact pairMismatch_self_head hm
  have step : ∀ (v : ℚ), v ≠ 0 → ∀ rest : List (ℚ × ℚ),
      pairMismatch (((0 : ℚ), (0 : ℚ)) :: rest) v = false → pairMismatch rest v = false :=
    fun v hv rest hr => pairMismatch_zero_head hv hr
  have h2 : a.filters.highlights = 0 := by
    by_cases hc : a.filters.highlights = 0
    · exact hc
    · have hm := get a.filters.highlights 0 (by simp [pixelFilterPairs])
      unfold pixelFilterPairs at hm
      rw [h1] at hm
      exact pairMismatch_self_head (step _ hc _ hm)
  have h3 : a.filters.shadows = 0 := by
    by_cases hc : a.filters.shadows = 0
    · exact hc
    · have hm := get a.filters.shadows 0 (by simp [pixelFilterPairs])
      unfold pixelFilterPairs at hm
      rw [h1, h2] at hm
      exact pairMismatch_self_head (step _ hc _ (step _ hc _ hm))
  have h4 : a.filters.whites = 0 := by
    by_cases hc : a.filters.whites = 0
    · exact hc
    · have hm := get a.filters.whites 0 (by simp [pixelFilterPairs])
      unfold pixelFilterPairs at hm
      rw [h1, h2, h3] at hm
      exact pairMismatch_self_head (step _ hc _ (step _ hc _ (step _ hc _ hm)))
  have h5 : a.filters.blacks = 0 := by
    by_cases hc : a.filters.blacks = 0
    · exact hc
    · have hm := get a.filters.blacks 0 (by simp [pixelFilterPairs])
      unfold pixelFilterPairs at hm
      rw [h1, h2, h3, h4] at hm
      exact pairMismatch_self_head
        (step _ hc _ (step _ hc _ (step _ hc _ (step _ hc _ hm))))
  have h6 : a.filters.temperature = 0 := by
    by_cases hc : a.filters.temperature = 0
    · exact hc
    · have hm := get a.filters.temperature 0 (by simp [pixelFilterPairs])
      unfold pixelFilterPairs at hm
      rw [h1, h2, h3, h4, h5] at hm
      exact pairMismatch_self_head
        (step _ hc _ (step _ hc _ (step _ hc _ (step _ hc _ (step _ hc _ hm)))))
  have h7 : a.filters.vibrance = 0 := by
    by_cases hc : a.filters.vibrance = 0
    · exact hc
    · have hm := get a.filters.vibrance 0 (by simp [pixelFilterPairs])
      unfold pixelFilterPairs at hm
      rw [h1, h2, h3, h4, h5, h6] at hm
      exact pairMismatch_self_head
        (step _ hc _ (step _ hc _ (step _ hc _ (step _ hc _ (step _ hc _ (step _ hc _ hm))))))
  have h8 : a.filters.sharpen = 0 := by
    by_cases hc : a.filters.sharpen = 0
    · exact hc
    · have hm := get a.filters.sharpen 0 (by simp [pixelFilterPairs])
      unfold pixelFilterPairs at hm
      rw [h1, h2, h3, h4, h5, h6, h7] at hm
      exact pairMismatch_self_head
        (step _ hc _ (step _ hc _ (step _ hc _ (step _ hc _ (step _ hc _ (step _ hc _
          (step _ hc _ hm)))))))
  have h9 : a.filters.dehaze = 0 := by
    by_cases hc : a.filters.dehaze = 0
    · exact hc
    · have hm := get a.filters.dehaze 0 (by simp [pixelFilterPairs])
      unfold pixelFilterPairs at hm
      rw [h1, h2, h3, h4, h5, h6, h7, h8] at hm
      exact pairMismatch_self_head
        (step _ hc _ (step _ hc _ (step _ hc _ (step _ hc _ (step _ hc _ (step _ hc _
          (step _ hc _ (step _ hc _ hm))))))))
  have h10 : a.filters.grain = 0 := by
    by_cases hc : a.filters.grain = 0
    · exact hc
    · have hm := get a.filters.grain 0 (by simp [pixelFilterPairs])
      unfold pixelFilterPairs at hm
      rw [h1, h2, h3, h4, h5, h6, h7, h8, h9] at hm
      exact pairMismatch_self_head
        (step _ hc _ (step _ hc _ (step _ hc _ (step _ hc _ (step _ hc _ (step _ hc _
          (step _ hc _ (step _ hc _ (step _ hc _ hm)))))))))
  have h11 : a.filters.haze = 0 := by
    by_cases hc : a.filters.haze = 0
    · exact hc
    · have hm := get a.filters.haze 0 (by simp [pixelFilterPairs])
      unfold pixelFilterPairs at hm
      rw [h1, h2, h3, h4, h5, h6, h7, h8, h9, h10] at hm
      exact pairMismatch_self_head
        (step _ hc _ (step _ hc _ (step _ hc _ (step _ hc _ (step _ hc _ (step _ hc _
          (step _ hc _ (step _ hc _ (step _ hc _ (step _ hc _ hm))))))))))
  exact ⟨h1, h2, h3, h4, h5, h6, h7, h8, h9, h10, h11, hcurves, hhsl⟩

/-- C2: the pipeline is the composition of the CSS pass and the individual
stage functions in the fixed documented order under the identity skip
guards, for every buffer and every `Adjustments` value whose haze, sharpen
and grain sliders are in their documented (non-negative) domains. -/
theorem pipeline_stage_order (a : Adjustments) (noise : ℕ → ℝ) (img : Img)
    (hhaze : 0 ≤ a.filters.haze) (hsharp : 0 ≤ a.filters.sharpen)
    (hgrain : 0 ≤ a.filters.grain) :
    adjustedImage a noise img = stageComposition a noise img := by
  have hflip : ∀ q : ℚ, 0 ≤ q → (0 < q) = ¬(q = 0) := by
    intro q hq
    apply propext
    constructor
    · exact fun h he => absurd he (ne_of_gt h)
    · exact fun h => hq.lt_of_ne (Ne.symm h)
  by_cases hnp : needsPixelManipulation a
  · unfold adjustedImage stageComposition
    rw [if_pos hnp]
    simp only [ne_eq, hflip _ hhaze, hflip _ hsharp, hflip _ hgrain, ← not_and_or,
      ← Bool.not_eq_true, ite_not]
  · have hz := needsPixel_eq_false (Bool.eq_false_iff.2 hnp)
    obtain ⟨h1, h2, h3, h4, h5, h6, h7, h8, h9, h10, h11, hcurves, hhsl⟩ := hz
    unfold adjustedImage stageComposition
    rw [if_neg hnp]
    simp only [h1, h2, h3, h4, h5, h6, h7, h8, h9, h10, h11, hcurves, hhsl, if_pos rfl,
      and_self, if_true]

/-- Witness for C2 at a concrete adjustment value and buffer. -/
theorem pipeline_stage_order_witness :
    adjustedImage initialAdjustments (fun _ => 0) testImg =
      stageComposition initialAdjustments (fun _ => 0) testImg :=
  pipeline_stage_order initialAdjustments (fun _ => 0) testImg (by norm_num [initialAdjustments, initialFilters])
    (by norm_num [initialAdjustments, initialFilters]) (by norm_num [initialAdjustments, initialFilters])

/-! ### Claim C5: no dimension check in the compositor -/

theorem getD_map_range {n : ℕ} {f : ℕ → QPix} {i : ℕ} (hi : i < n) (d : QPix) :
    ((List.range n).map f).getD i d = f i := by
  simp [List.getD, List.get?_map, List.getElem?_range, hi]

/-- A layer with its mask aligned (padded/clipped) to the base size the way
`drawImage` at the origin aligns it. -/
def alignLayer (w h : ℕ) (l : Layer) : Layer :=
  { l with maskSrc := l.maskSrc.map fun m => drawSurface w h m }

theorem drawSurface_idem (w h : ℕ) (s : QImg) :
    drawSurface w h (drawSurface w h s) = drawSurface w h s := by
  unfold drawSurface
  simp only [QImg.mk.injEq, true_and]
  apply List.map_congr_left
  intro i hi
  rw [List.mem_range] at hi
  have hw : 0 < w := by
    rcases Nat.eq_zero_or_pos w with h0 | h0
    · rw [h0, Nat.mul_zero] at hi
      omega
    · exact h0
  have hx : i % w < w := Nat.mod_lt _ hw
  have hy : i / w < h := by
    rw [Nat.div_lt_iff_lt_mul hw]
    omega
  rw [if_pos ⟨hx, hy⟩, show (i / w) * w + i % w = i by
    rw [Nat.mul_comm]; exact Nat.div_add_mod i w]
  unfold qpixAt
  rw [getD_map_range (by omega)]

theorem layerSurface_align (w h : ℕ) (l : Layer) :
    layerSurface w h (alignLayer w h l) = layerSurface w h l := by
  unfold layerSurface alignLayer
  cases hm : l.maskSrc with
  | none => simp [hm]
  | some m => simp [hm, drawSurface_idem]

theorem visibleMasked_align (w h : ℕ) (layers : List Layer) :
    visibleMasked (layers.map (alignLayer w h)) =
      (visibleMasked layers).map (alignLayer w h) := by
  unfold visibleMasked
  rw [List.filter_map]
  congr 1
  apply List.filter_congr
  intro l _
  simp [alignLayer, Function.comp]

theorem compositeMask_align (w h : ℕ) (layers : List Layer) :
    compositeMask w h (layers.map (alignLayer w h)) = compositeMask w h layers := by
  unfold compositeMask
  rw [visibleMasked_align, List.foldl_map]
  congr 1
  funext acc l
  rw [layerSurface_align]

theorem compositeStage_align (base adjusted : QImg) (layers : List Layer) :
    compositeStage base adjusted (layers.map (alignLayer base.w base.h)) =
      compositeStage base adjusted layers := by
  unfold compositeStage
  rw [visibleMasked_align, compositeMask_align]
  by_cases hempty : visibleMasked layers = []
  · rw [if_pos hempty, if_pos (by rw [hempty]; rfl)]
  · rw [if_neg hempty, if_neg (by simpa using hempty)]

/-- C5 amended: the compositing stage never reports a dimension mismatch; a
visible layer's mask of any size is drawn at the top-left of a base-sized
surface, so it is silently padded with transparent pixels or clipped to the
base extent (never resampled), and compositing proceeds normally. -/
theorem composite_silently_pads (base adjusted : QImg) (layers : List Layer) :
    compositeStageE base adjusted layers = Except.ok (compositeStage base adjusted layers) ∧
    compositeStage base adjusted (layers.map (alignLayer base.w base.h)) =
      compositeStage base adjusted layers :=
  ⟨rfl, compositeStage_align base adjusted layers⟩

/-- A 2×1 white base. -/
def cBase : QImg := ⟨2, 1, [⟨1, 1, 1, 1⟩, ⟨1, 1, 1, 1⟩]⟩

/-- A 2×1 black adjusted image. -/
def cAdj : QImg := ⟨2, 1, [⟨0, 0, 0, 1⟩, ⟨0, 0, 0, 1⟩]⟩

/-- A visible layer whose mask is 1×1 — its size disagrees with `cBase`. -/
def cLayer : Layer := ⟨true, some ⟨1, 1, [⟨1, 1, 1, 1⟩]⟩, false⟩

/-- C5 counterexample: on a visible mask whose dimensions differ from the
base, the compositing stage does not fail fast with `DimensionMismatch`
(it succeeds with the padded composite), although the spec-modelled
checking front-end would. -/
theorem dimension_mismatch_counterexample :
    hasDimensionMismatch cBase [cLayer] ∧
    compositeStageE cBase cAdj [cLayer] ≠ Except.error CompositeError.dimensionMismatch ∧
    compositeStageSpec cBase cAdj [cLayer] = Except.error CompositeError.dimensionMismatch := by
  refine ⟨by decide, by simp [compositeStageE], ?_⟩
  unfold compositeStageSpec
  rw [if_pos (by decide)]

/-! ### Claim C6: histogram of a uniform image -/

theorem foldr_max_replicate_zero : ∀ k, ((List.replicate k (0 : ℕ)).foldr max 0) = 0 := by
  intro k
  induction k with
  | zero => rfl
  | succ k ih => simp [List.replicate_succ, ih]

theorem foldr_max_set_replicate (m : ℕ) : ∀ k j, j < k →
    (((List.replicate k (0 : ℕ)).set j m).foldr max 0) = m := by
  intro k
  induction k with
  | zero => omega
  | succ k ih =>
    intro j hj
    cases j with
    | zero => simp [List.replicate_succ, foldr_max_replicate_zero]
    | succ j =>
      rw [List.replicate_succ, List.set_cons_succ, List.foldr_cons, ih j (by omega)]
      simp

theorem getD_replicate_zero (k j : ℕ) : (List.replicate k (0 : ℕ)).getD j 0 = 0 := by
  rcases lt_or_le j k with h | h
  · simp [List.getD, List.getElem?_replicate, h]
  · simp [List.getD, List.getElem?_replicate, Nat.not_lt.2 h]

theorem map_set_comm {α β : Type _} (f : α → β) :
    ∀ (l : List α) (j : ℕ) (a : α), (l.set j a).map f = (l.map f).set j (f a) := by
  intro l
  induction l with
  | nil => intro j a; simp
  | cons x xs ih =>
    intro j a
    cases j with
    | zero => simp
    | succ j => simp [ih]

theorem histCounts_replicate (p : Pix) (ch : Pix → ℕ) : ∀ n : ℕ,
    histCounts (List.replicate (n + 1) p) ch =
      (List.replicate 256 (0 : ℕ)).set (ch p) (n + 1) := by
  intro n
  induction n with
  | zero =>
    show histCounts [p] ch = _
    unfold histCounts bumpCount
    rw [List.foldl_cons, List.foldl_nil, getD_replicate_zero]
  | succ n ih =>
    unfold histCounts at ih ⊢
    rw [List.replicate_succ' (n + 1) p, List.foldl_append, ih, List.foldl_cons,
      List.foldl_nil]
    unfold bumpCount
    rcases lt_or_le (ch p) 256 with hlt | hge
    · rw [List.getD_eq_getElem?_getD,
        List.getElem?_set_eq_of_lt _ (by rw [List.length_replicate]; omega), Option.getD_some,
        List.set_set]
    · have hlen : ∀ v : ℕ, (List.replicate 256 (0 : ℕ)).set (ch p) v =
          List.replicate 256 0 := fun v =>
        List.set_eq_of_length_le (by rw [List.length_replicate]; omega)
      rw [hlen, hlen, hlen]

theorem histogram_uniform_channel (p : Pix) (n : ℕ) (ch : Pix → ℕ) (hch : ch p ≤ 255) :
    normalizeHist (histCounts (List.replicate (n + 1) p) ch) =
      (List.replicate 256 (0 : ℚ)).set (ch p) 255 := by
  rw [histCounts_replicate]
  unfold normalizeHist
  rw [foldr_max_set_replicate _ _ _ (by omega), if_neg (by omega)]
  rw [map_set_comm, List.map_replicate]
  congr 1
  · norm_num
  · rw [show ((n + 1 : ℕ) : ℚ) * (255 / ((n + 1 : ℕ) : ℚ)) = 255 by
      field_simp]

theorem histogram_empty_channel (ch : Pix → ℕ) :
    normalizeHist (histCounts [] ch) = List.replicate 256 (0 : ℚ) := by
  unfold histCounts normalizeHist
  rw [List.foldl_nil, foldr_max_replicate_zero, if_pos rfl, List.map_replicate]
  norm_num

theorem lumaBin_le (p : Pix) (hr : p.r ≤ 255) (hg : p.g ≤ 255) (hb : p.b ≤ 255) :
    lumaBin p ≤ 255 := by
  unfold lumaBin jsRoundQ
  have hle : ((p.r * 299 + p.g * 587 + p.b * 114 : ℚ)) / 1000 + 1 / 2 < 256 := by
    have h1 : ((p.r : ℚ)) ≤ 255 := by exact_mod_cast hr
    have h2 : ((p.g : ℚ)) ≤ 255 := by exact_mod_cast hg
    have h3 : ((p.b : ℚ)) ≤ 255 := by exact_mod_cast hb
    linarith
  have hfl : ⌊(p.r * 299 + p.g * 587 + p.b * 114 : ℚ) / 1000 + 1 / 2⌋ < 256 := by
    rw [Int.floor_lt]
    push_cast
    linarith
  omega

/-- C6 amended: a non-empty uniform image normalizes, on every channel, to
an array holding a single 255 spike at the uniform color's bin and zeros
elsewhere; only an empty (zero-pixel) source leaves the counts — all
zeros — unchanged.  No division by zero occurs in either case. -/
theorem histogram_uniform_amended (p : Pix) (n : ℕ) (hr : p.r ≤ 255) (hg : p.g ≤ 255)
    (hb : p.b ≤ 255) :
    calculateHistogram (List.replicate (n + 1) p) =
      ⟨(List.replicate 256 (0 : ℚ)).set (lumaBin p) 255,
       (List.replicate 256 (0 : ℚ)).set p.r 255,
       (List.replicate 256 (0 : ℚ)).set p.g 255,
       (List.replicate 256 (0 : ℚ)).set p.b 255⟩ ∧
    calculateHistogram [] =
      ⟨List.replicate 256 (0 : ℚ), List.replicate 256 (0 : ℚ),
       List.replicate 256 (0 : ℚ), List.replicate 256 (0 : ℚ)⟩ := by
  constructor
  · unfold calculateHistogram
    rw [histogram_uniform_channel p n _ (lumaBin_le p hr hg hb),
      histogram_uniform_channel p n _ hr, histogram_uniform_channel p n _ hg,
      histogram_uniform_channel p n _ hb]
  · unfold calculateHistogram
    rw [histogram_empty_channel, histogram_empty_channel, histogram_empty_channel,
      histogram_empty_channel]

/-- Witness for the amended C6 at a concrete uniform 1-pixel image. -/
theorem histogram_uniform_amended_witness :
    calculateHistogram (List.replicate 1 (⟨7, 7, 7, 255⟩ : Pix)) =
      ⟨(List.replicate 256 (0 : ℚ)).set (lumaBin ⟨7, 7, 7, 255⟩) 255,
       (List.replicate 256 (0 : ℚ)).set 7 255,
       (List.replicate 256 (0 : ℚ)).set 7 255,
       (List.replicate 256 (0 : ℚ)).set 7 255⟩ ∧
    calculateHistogram [] =
      ⟨List.replicate 256 (0 : ℚ), List.replicate 256 (0 : ℚ),
       List.replicate 256 (0 : ℚ), List.replicate 256 (0 : ℚ)⟩ :=
  histogram_uniform_amended ⟨7, 7, 7, 255⟩ 0 (by norm_num) (by norm_num) (by norm_num)

/-- C6 counterexample: the red histogram channel of the non-empty uniform
image `[(7,7,7,255)]` is not the all-zero array — it has a 255 spike at
bin 7. -/
theorem histogram_uniform_counterexample :
    (calculateHistogram [(⟨7, 7, 7, 255⟩ : Pix)]).red ≠ List.replicate 256 (0 : ℚ) := by
  intro hc
  have h := histogram_uniform_channel ⟨7, 7, 7, 255⟩ 0 Pix.r (by norm_num)
  have hred : (calculateHistogram [(⟨7, 7, 7, 255⟩ : Pix)]).red =
      normalizeHist (histCounts (List.replicate 1 ⟨7, 7, 7, 255⟩) Pix.r) := by
    unfold calculateHistogram
    rw [show List.replicate 1 (⟨7, 7, 7, 255⟩ : Pix) = [⟨7, 7, 7, 255⟩] from rfl]
  rw [hred, h] at hc
  have h7 := congrArg (fun l => l.get? 7) hc
  simp only [List.get?_set_eq_of_lt _
    (by rw [List.length_replicate]; norm_num : (7 : ℕ) < (List.replicate 256 (0 : ℚ)).length)]
    at h7
  rw [show (List.replicate 256 (0 : ℚ)).get? 7 = some 0 by
    rw [List.get?_eq_getElem?, List.getElem?_replicate, if_pos (by norm_num)]] at h7
  norm_num at h7

/-! ### Claim C8: mask combination and layer order -/

/-- Every present mask of the list is fully opaque. -/
def OpaqueMasks (layers : List Layer) : Prop :=
  ∀ l ∈ layers, ∀ m, l.maskSrc = some m → ∀ p ∈ m.data, p.a = 1

/-- Permutation invariance of a left fold whose step keeps an accumulator
invariant `P` and commutes on accumulators satisfying `P` for list elements
satisfying `Q`. -/
theorem perm_foldl_inv {α β : Type _} (f : β → α → β) (P : β → Prop) (Q : α → Prop)
    (hP : ∀ b a, P b → P (f b a))
    (hcomm : ∀ b, P b → ∀ x y, Q x → Q y → f (f b x) y = f (f b y) x) :
    ∀ {l₁ l₂ : List α}, l₁.Perm l₂ → (∀ a ∈ l₁, Q a) → ∀ b, P b →
      l₁.foldl f b = l₂.foldl f b := by
  intro l₁ l₂ hperm
  induction hperm with
  | nil => intro _ b _; rfl
  | cons x p ih =>
    intro hQ b hb
    simp only [List.foldl_cons]
    exact ih (fun a ha => hQ a (List.mem_cons_of_mem _ ha)) (f b x) (hP b x hb)
  | swap x y t =>
    intro hQ b hb
    simp only [List.foldl_cons]
    rw [hcomm b hb y x (hQ y (by simp)) (hQ x (by simp))]
  | trans p1 p2 ih1 ih2 =>
    intro hQ b hb
    rw [ih1 hQ b hb, ih2 (fun a ha => hQ a (p1.symm.subset ha)) b hb]

theorem lightenBlend_alpha (cb cs : QPix) (hb : cb.a = 1) : (lightenBlend cb cs).a = 1 := by
  unfold lightenBlend
  rw [hb, show cs.a + 1 * (1 - cs.a) = 1 by ring, if_neg one_ne_zero]

theorem lightenBlend_opaque_src (c s : QPix) (hc : c.a = 1) (hs : s.a = 1) :
    lightenBlend c s = ⟨max c.r s.r, max c.g s.g, max c.b s.b, 1⟩ := by
  unfold lightenBlend
  rw [hc, hs, show (1 : ℚ) + 1 * (1 - 1) = 1 by ring, if_neg one_ne_zero]
  simp only [QPix.mk.injEq]
  refine ⟨?_, ?_, ?_, trivial⟩ <;> ring

theorem lightenBlend_transparent_src (c s : QPix) (hc : c.a = 1) (hs : s.a = 0) :
    lightenBlend c s = c := by
  unfold lightenBlend
  rw [hc, hs, show (0 : ℚ) + 1 * (1 - 0) = 1 by ring, if_neg one_ne_zero]
  cases c with
  | mk r g b a =>
    simp only [QPix.mk.injEq]
    simp only at hc
    refine ⟨?_, ?_, ?_, hc.symm⟩ <;> ring

/-- The per-pixel fold step of `compositeMask` at pixel `i`. -/
def maskStep (w h i : ℕ) (c : QPix) (l : Layer) : QPix :=
  lightenBlend c (qpixAt (layerSurface w h l) i)

theorem maskStep_alpha (w h i : ℕ) (c : QPix) (l : Layer) (hc : c.a = 1) :
    (maskStep w h i c l).a = 1 := lightenBlend_alpha _ _ hc

theorem qpixAt_alpha_of_opaque (A : QImg) (i : ℕ) (hop : ∀ p ∈ A.data, p.a = 1) :
    (qpixAt A i).a = 0 ∨ (qpixAt A i).a = 1 := by
  unfold qpixAt
  rcases lt_or_le i A.data.length with hi | hi
  · right
    rw [List.getD_eq_getElem?_getD, List.getElem?_eq_getElem hi]
    exact hop _ (List.getElem_mem _)
  · left
    rw [List.getD_eq_getElem?_getD, List.getElem?_eq_none hi]
    rfl

theorem drawSurface_alpha (w h : ℕ) (s : QImg) (hop : ∀ p ∈ s.data, p.a = 1) (j : ℕ) :
    (qpixAt (drawSurface w h s) j).a = 0 ∨ (qpixAt (drawSurface w h s) j).a = 1 := by
  rcases lt_or_le j (h * w) with hj | hj
  · rw [show qpixAt (drawSurface w h s) j =
        (if j % w < s.w ∧ j / w < s.h then qpixAt s (j / w * s.w + j % w)
          else ⟨0, 0, 0, 0⟩) from by
      unfold drawSurface qpixAt
      exact getD_map_range hj _]
    split_ifs with hin
    · exact qpixAt_alpha_of_opaque s _ hop
    · left; rfl
  · left
    unfold drawSurface qpixAt
    rw [List.getD_eq_getElem?_getD, List.getElem?_eq_none (by simpa using hj)]
    rfl

theorem xorWhite_alpha (p : QPix) (hp : p.a = 0 ∨ p.a = 1) :
    (xorWhite p).a = 0 ∨ (xorWhite p).a = 1 := by
  unfold xorWhite
  rcases hp with h | h
  · right
    rw [h, if_neg (by norm_num)]
    norm_num
  · left
    rw [h, if_pos (by norm_num)]

theorem qpixAt_map_xorWhite (A : QImg) (i : ℕ)
    (hA : ∀ j, (qpixAt A j).a = 0 ∨ (qpixAt A j).a = 1) :
    (qpixAt ⟨A.w, A.h, A.data.map xorWhite⟩ i).a = 0 ∨
      (qpixAt ⟨A.w, A.h, A.data.map xorWhite⟩ i).a = 1 := by
  unfold qpixAt
  rcases lt_or_le i A.data.length with hi | hi
  · rw [List.getD_eq_getElem?_getD, List.getElem?_map, List.getElem?_eq_getElem hi]
    simp only [Option.map_some', Option.getD_some]
    apply xorWhite_alpha
    have h := hA i
    unfold qpixAt at h
    rwa [List.getD_eq_getElem?_getD, List.getElem?_eq_getElem hi] at h
  · left
    rw [List.getD_eq_getElem?_getD, List.getElem?_eq_none (by simpa using hi)]
    rfl

theorem layerSurface_alpha_cases (w h : ℕ) (l : Layer)
    (hop : ∀ m, l.maskSrc = some m → ∀ p ∈ m.data, p.a = 1) (i : ℕ) :
    (qpixAt (layerSurface w h l) i).a = 0 ∨ (qpixAt (layerSurface w h l) i).a = 1 := by
  have hmask : ∀ p ∈ (l.maskSrc.getD ⟨0, 0, []⟩).data, p.a = 1 := by
    cases hms : l.maskSrc with
    | none => intro p hp; simp at hp
    | some m => intro p hp; exact hop m hms p (by simpa using hp)
  unfold layerSurface
  split_ifs with hinv
  · exact qpixAt_map_xorWhite _ i (drawSurface_alpha w h _ hmask)
  · exact drawSurface_alpha w h _ hmask i

theorem max_swap_right (a b c : ℚ) : max (max a b) c = max (max a c) b := by
  rw [max_assoc, max_comm b c, ← max_assoc]

theorem maskStep_comm (w h i : ℕ) (c : QPix) (hc : c.a = 1) (x y : Layer)
    (hx : (qpixAt (layerSurface w h x) i).a = 0 ∨ (qpixAt (layerSurface w h x) i).a = 1)
    (hy : (qpixAt (layerSurface w h y) i).a = 0 ∨ (qpixAt (layerSurface w h y) i).a = 1) :
    maskStep w h i (maskStep w h i c x) y = maskStep w h i (maskStep w h i c y) x := by
  unfold maskStep
  set s := qpixAt (layerSurface w h x) i
  set t := qpixAt (layerSurface w h y) i
  rcases hx with hx0 | hx1 <;> rcases hy with hy0 | hy1
  · rw [lightenBlend_transparent_src c s hc hx0, lightenBlend_transparent_src c t hc hy0,
      lightenBlend_transparent_src c s hc hx0]
  · rw [lightenBlend_transparent_src c s hc hx0, lightenBlend_opaque_src c t hc hy1,
      lightenBlend_transparent_src _ s (by rfl) hx0]
  · rw [lightenBlend_transparent_src c t hc hy0, lightenBlend_opaque_src c s hc hx1,
      lightenBlend_transparent_src _ t (by rfl) hy0]
  · rw [lightenBlend_opaque_src c s hc hx1, lightenBlend_opaque_src c t hc hy1,
      lightenBlend_opaque_src _ t (by rfl) hy1, lightenBlend_opaque_src _ s (by rfl) hx1]
    simp only [QPix.mk.injEq]
    exact ⟨max_swap_right _ _ _, max_swap_right _ _ _, max_swap_right _ _ _, trivial⟩

theorem qpixAt_blendSurf (f : QPix → QPix → QPix) (dst src : QImg) (i : ℕ)
    (hi : i < dst.h * dst.w) :
    qpixAt (blendSurf f dst src) i = f (qpixAt dst i) (qpixAt src i) := by
  show (blendSurf f dst src).data.getD i ⟨0, 0, 0, 0⟩ = _
  unfold blendSurf
  exact getD_map_range hi _

theorem qpixAt_fold_blend (w h i : ℕ) (hi : i < h * w) :
    ∀ (ls : List Layer) (acc : QImg), acc.w = w → acc.h = h →
      qpixAt (ls.foldl (fun a l => blendSurf lightenBlend a (layerSurface w h l)) acc) i =
        ls.foldl (maskStep w h i) (qpixAt acc i) := by
  intro ls
  induction ls with
  | nil => intro acc _ _; rfl
  | cons l tl ih =>
    intro acc hw hh
    rw [List.foldl_cons, List.foldl_cons, ih _ (by simp [blendSurf, hw]) (by simp [blendSurf, hh])]
    congr 1
    rw [qpixAt_blendSurf _ _ _ i (by rw [hw, hh]; exact hi)]
    rfl

theorem fold_blend_shape (w h : ℕ) (ls : List Layer) :
    ∀ acc : QImg, acc.w = w → acc.h = h → acc.data.length = h * w →
      (ls.foldl (fun a l => blendSurf lightenBlend a (layerSurface w h l)) acc).w = w ∧
      (ls.foldl (fun a l => blendSurf lightenBlend a (layerSurface w h l)) acc).h = h ∧
      (ls.foldl (fun a l => blendSurf lightenBlend a (layerSurface w h l)) acc).data.length =
        h * w := by
  induction ls with
  | nil => intro acc hw hh hl; exact ⟨hw, hh, hl⟩
  | cons l tl ih =>
    intro acc hw hh _
    rw [List.foldl_cons]
    exact ih _ (by simp [blendSurf, hw]) (by simp [blendSurf, hh])
      (by simp [blendSurf, hw, hh])

theorem QImg_ext_pix {A B : QImg} (hw : A.w = B.w) (hh : A.h = B.h)
    (hlA : A.data.length = A.h * A.w) (hlB : B.data.length = B.h * B.w)
    (hpix : ∀ i < A.h * A.w, qpixAt A i = qpixAt B i) : A = B := by
  cases A with
  | mk aw ah ad =>
    cases B with
    | mk bw bh bd =>
      simp only at hw hh hlA hlB hpix
      subst hw hh
      simp only [QImg.mk.injEq, true_and]
      apply List.ext_getElem (by omega)
      intro n h1 h2
      have := hpix n (by omega)
      unfold qpixAt at this
      simp only at this
      rwa [List.getD_eq_getElem?_getD, List.getD_eq_getElem?_getD,
        List.getElem?_eq_getElem h1, List.getElem?_eq_getElem h2] at this

/-- The starting composite-mask pixel is opaque black. -/
theorem qpixAt_blackOpaque (w h i : ℕ) (hi : i < h * w) :
    qpixAt ⟨w, h, List.replicate (h * w) (⟨0, 0, 0, 1⟩ : QPix)⟩ i = ⟨0, 0, 0, 1⟩ := by
  unfold qpixAt
  simp only
  rw [List.getD_eq_getElem?_getD, List.getElem?_replicate, if_pos hi]
  rfl

theorem compositeMask_perm (w h : ℕ) (layers layers' : List Layer)
    (hperm : layers.Perm layers') (hop : OpaqueMasks layers) :
    compositeMask w h layers = compositeMask w h layers' := by
  have hvp : (visibleMasked layers).Perm (visibleMasked layers') := by
    unfold visibleMasked
    exact hperm.filter _
  have hopv : ∀ l ∈ visibleMasked layers, ∀ m, l.maskSrc = some m → ∀ p ∈ m.data, p.a = 1 :=
    fun l hl => hop l (List.mem_of_mem_filter hl)
  unfold compositeMask
  have hsh := fold_blend_shape w h (visibleMasked layers)
    ⟨w, h, List.replicate (h * w) ⟨0, 0, 0, 1⟩⟩ rfl rfl (by simp)
  have hsh' := fold_blend_shape w h (visibleMasked layers')
    ⟨w, h, List.replicate (h * w) ⟨0, 0, 0, 1⟩⟩ rfl rfl (by simp)
  apply QImg_ext_pix (by rw [hsh.1, hsh'.1]) (by rw [hsh.2.1, hsh'.2.1])
    (by rw [hsh.2.2, hsh.1, hsh.2.1]) (by rw [hsh'.2.2, hsh'.1, hsh'.2.1])
  intro i hi
  rw [hsh.2.1, hsh.1] at hi
  rw [qpixAt_fold_blend w h i hi _ _ rfl rfl, qpixAt_fold_blend w h i hi _ _ rfl rfl,
    qpixAt_blackOpaque w h i hi]
  exact perm_foldl_inv (maskStep w h i) (fun c => c.a = 1)
    (fun l => (qpixAt (layerSurface w h l) i).a = 0 ∨ (qpixAt (layerSurface w h l) i).a = 1)
    (fun b a hb => maskStep_alpha w h i b a hb)
    (fun b hb x y hx hy => maskStep_comm w h i b hb x y hx hy)
    hvp (fun l hl => layerSurface_alpha_cases w h l (hopv l hl) i) ⟨0, 0, 0, 1⟩ rfl

theorem compositeStage_perm (base adjusted : QImg) (layers layers' : List Layer)
    (hperm : layers.Perm layers') (hop : OpaqueMasks layers) :
    compositeStage base adjusted layers = compositeStage base adjusted layers' := by
  have hvp : (visibleMasked layers).Perm (visibleMasked layers') := by
    unfold visibleMasked
    exact hperm.filter _
  unfold compositeStage
  by_cases hempty : visibleMasked layers = []
  · rw [if_pos hempty, if_pos (by rw [hempty] at hvp; exact hvp.symm.eq_nil)]
  · rw [if_neg hempty, if_neg (fun hc => hempty (by rw [hc] at hvp; exact hvp.eq_nil)),
      compositeMask_perm base.w base.h layers layers' hperm hop]

/-- C8 amended: for visible layers whose masks are fully opaque, permuting
the layer list leaves both the composite mask and the final composited
image unchanged; with partially transparent masks the `lighten` compositing
of the mask canvas is order-dependent (see the counterexample). -/
theorem mask_order_amended (base adjusted : QImg) (layers layers' : List Layer)
    (hperm : layers.Perm layers') (hop : OpaqueMasks layers) :
    compositeMask base.w base.h layers = compositeMask base.w base.h layers' ∧
    compositeStage base adjusted layers = compositeStage base adjusted layers' :=
  ⟨compositeMask_perm base.w base.h layers layers' hperm hop,
   compositeStage_perm base adjusted layers layers' hperm hop⟩

/-- A visible, fully opaque dark-gray 1×1 mask layer. -/
def oL1 : Layer := ⟨true, some ⟨1, 1, [⟨1/5, 1/5, 1/5, 1⟩]⟩, false⟩

/-- A visible, fully opaque light 1×1 mask layer, inverted. -/
def oL2 : Layer := ⟨true, some ⟨1, 1, [⟨9/10, 9/10, 9/10, 1⟩]⟩, true⟩

/-- Witness for the amended C8 on concrete opaque layers. -/
theorem mask_order_amended_witness :
    compositeMask cBase.w cBase.h [oL1, oL2] = compositeMask cBase.w cBase.h [oL2, oL1] ∧
    compositeStage cBase cAdj [oL1, oL2] = compositeStage cBase cAdj [oL2, oL1] :=
  mask_order_amended cBase cAdj [oL1, oL2] [oL2, oL1] (List.Perm.swap _ _ _)
    (by
      intro l hl m hm p hp
      rcases List.mem_pair.1 hl with h | h <;> subst h
      · rw [show oL1.maskSrc = some ⟨1, 1, [⟨1/5, 1/5, 1/5, 1⟩]⟩ from rfl] at hm
        cases hm
        simp only [List.mem_singleton] at hp
        subst hp
        rfl
      · rw [show oL2.maskSrc = some ⟨1, 1, [⟨9/10, 9/10, 9/10, 1⟩]⟩ from rfl] at hm
        cases hm
        simp only [List.mem_singleton] at hp
        subst hp
        rfl)

/-- The semi-transparent counterexample layers. -/
def cL1 : Layer := ⟨true, some ⟨1, 1, [⟨1/5, 1/5, 1/5, 1⟩]⟩, false⟩

/-- A visible layer whose mask has alpha 1/2 (a soft brush stroke). -/
def cL2 : Layer := ⟨true, some ⟨1, 1, [⟨9/10, 9/10, 9/10, 1/2⟩]⟩, false⟩

/-- C8 counterexample: swapping two visible layers, one of which carries a
semi-transparent mask, changes the composite mask (red channel 11/20
versus 9/20 on the single pixel), so mask combination is not
order-independent as stated. -/
theorem mask_order_counterexample :
    List.Perm [cL1, cL2] [cL2, cL1] ∧
    compositeMask 1 1 [cL1, cL2] ≠ compositeMask 1 1 [cL2, cL1] := by
  refine ⟨List.Perm.swap _ _ _, ?_⟩
  intro hcontra
  have h0 := congrArg (fun m => (qpixAt m 0).r) hcontra
  have hl : visibleMasked [cL1, cL2] = [cL1, cL2] := rfl
  have hl' : visibleMasked [cL2, cL1] = [cL2, cL1] := rfl
  rw [show (fun m => (qpixAt m 0).r) (compositeMask 1 1 [cL1, cL2]) =
      (qpixAt (compositeMask 1 1 [cL1, cL2]) 0).r from rfl] at h0
  rw [show (fun m => (qpixAt m 0).r) (compositeMask 1 1 [cL2, cL1]) =
      (qpixAt (compositeMask 1 1 [cL2, cL1]) 0).r from rfl] at h0
  unfold compositeMask at h0
  rw [hl, hl'] at h0
  rw [qpixAt_fold_blend 1 1 0 (by norm_num) _ _ rfl rfl,
    qpixAt_fold_blend 1 1 0 (by norm_num) _ _ rfl rfl,
    qpixAt_blackOpaque 1 1 0 (by norm_num)] at h0
  have hs1 : qpixAt (layerSurface 1 1 cL1) 0 = ⟨1/5, 1/5, 1/5, 1⟩ := by
    unfold layerSurface cL1 drawSurface qpixAt
    norm_num
  have hs2 : qpixAt (layerSurface 1 1 cL2) 0 = ⟨9/10, 9/10, 9/10, 1/2⟩ := by
    unfold layerSurface cL2 drawSurface qpixAt
    norm_num
  simp only [List.foldl_cons, List.foldl_nil, maskStep, hs1, hs2] at h0
  unfold lightenBlend at h0
  norm_num at h0

/-! ### Claim C3: monotonicity of the LUT

The cubic Hermite segment value as `lutEntry` computes it, as a function of
the normalized position `t`.  The two tangents are constrained by the
fix-up loop to the Fritsch–Carlson box `0 ≤ m ≤ 3δ`, which makes the
segment monotone on `t ∈ [0,1]` — an algebraic fact proved below through a
bilinear certificate over the box corners. -/

/-- The Hermite basis combination of `lutEntry` (with `m0`, `m1` the raw
tangents, scaled by `h` as in the source). -/
noncomputable def hermiteH (y0 y1 m0 m1 hseg t : ℝ) : ℝ :=
  (2 * (t * t * t) - 3 * (t * t) + 1) * y0 + (t * t * t - 2 * (t * t) + t) * (m0 * hseg) +
    (-2 * (t * t * t) + 3 * (t * t)) * y1 + (t * t * t - t * t) * (m1 * hseg)

theorem hermiteH_zero (y0 y1 m0 m1 hseg : ℝ) : hermiteH y0 y1 m0 m1 hseg 0 = y0 := by
  unfold hermiteH
  ring

theorem hermiteH_one (y0 y1 m0 m1 hseg : ℝ) : hermiteH y0 y1 m0 m1 hseg 1 = y1 := by
  unfold hermiteH
  ring

theorem hermiteH_mono (y0 y1 δ m0 m1 hseg t1 t2 : ℝ)
    (hh : 0 < hseg) (hδ : 0 ≤ δ) (hy1 : y1 = y0 + δ * hseg)
    (hm00 : 0 ≤ m0) (hm03 : m0 ≤ 3 * δ) (hm10 : 0 ≤ m1) (hm13 : m1 ≤ 3 * δ)
    (ht0 : 0 ≤ t1) (ht12 : t1 ≤ t2) (ht1 : t2 ≤ 1) :
    hermiteH y0 y1 m0 m1 hseg t1 ≤ hermiteH y0 y1 m0 m1 hseg t2 := by
  have ht10 : 0 ≤ t2 := le_trans ht0 ht12
  have ht11 : t1 ≤ 1 := le_trans ht12 ht1
  set s1 := t1 + t2 with hs1
  set s2 := t1 * t1 + t1 * t2 + t2 * t2 with hs2
  have hA : 0 ≤ 3 * s1 - 2 * s2 := by
    rw [hs1, hs2]
    nlinarith [mul_nonneg ht0 (sub_nonneg.2 ht11), mul_nonneg ht10 (sub_nonneg.2 ht1),
      mul_nonneg ht0 (sub_nonneg.2 ht1), mul_nonneg ht10 (sub_nonneg.2 ht11)]
  have hB' : 0 ≤ s2 - 3 * s1 + 3 := by
    rw [hs1, hs2]
    nlinarith [sq_nonneg (1 - t1), sq_nonneg (1 - t2),
      mul_nonneg (sub_nonneg.2 ht11) (sub_nonneg.2 ht1)]
  have hC' : 0 ≤ s2 := by
    rw [hs2]
    nlinarith [sq_nonneg t1, sq_nonneg t2, mul_nonneg ht0 ht10]
  have hD' : 0 ≤ 4 * s2 - 6 * s1 + 3 := by
    rw [hs1, hs2]
    nlinarith [sq_nonneg (2 * t1 - 1), sq_nonneg (2 * t2 - 1),
      sq_nonneg (2 * t1 - 1 + (2 * t2 - 1))]
  have hbracket : 0 ≤ δ * (3 * s1 - 2 * s2) + m0 * (s2 - 2 * s1 + 1) + m1 * (s2 - s1) := by
    rcases eq_or_lt_of_le hδ with hδ0 | hδpos
    · have hm0z : m0 = 0 := le_antisymm (by rw [← hδ0] at hm03; linarith) hm00
      have hm1z : m1 = 0 := le_antisymm (by rw [← hδ0] at hm13; linarith) hm10
      rw [hm0z, hm1z, ← hδ0]
      ring_nf
      exact le_rfl
    · have hS : 0 ≤ (3 * δ - m0) * ((3 * δ - m1) * (3 * s1 - 2 * s2)) +
          m0 * ((3 * δ - m1) * (s2 - 3 * s1 + 3)) +
          (3 * δ - m0) * (m1 * s2) + m0 * (m1 * (4 * s2 - 6 * s1 + 3)) := by
        have h30 : 0 ≤ 3 * δ - m0 := by linarith
        have h31 : 0 ≤ 3 * δ - m1 := by linarith
        have p1 := mul_nonneg h30 (mul_nonneg h31 hA)
        have p2 := mul_nonneg hm00 (mul_nonneg h31 hB')
        have p3 := mul_nonneg h30 (mul_nonneg hm10 hC')
        have p4 := mul_nonneg hm00 (mul_nonneg hm10 hD')
        linarith
      have hident : 9 * δ * (δ * (3 * s1 - 2 * s2) + m0 * (s2 - 2 * s1 + 1) +
          m1 * (s2 - s1)) =
          (3 * δ - m0) * ((3 * δ - m1) * (3 * s1 - 2 * s2)) +
          m0 * ((3 * δ - m1) * (s2 - 3 * s1 + 3)) +
          (3 * δ - m0) * (m1 * s2) + m0 * (m1 * (4 * s2 - 6 * s1 + 3)) := by
        ring
      nlinarith [hS, hident, hδpos]
  have hkey : hermiteH y0 y1 m0 m1 hseg t2 - hermiteH y0 y1 m0 m1 hseg t1 =
      hseg * (t2 - t1) *
        (δ * (3 * s1 - 2 * s2) + m0 * (s2 - 2 * s1 + 1) + m1 * (s2 - s1)) := by
    rw [hy1, hs1, hs2]
    unfold hermiteH
    ring
  nlinarith [mul_nonneg (mul_nonneg hh.le (sub_nonneg.2 ht12)) hbracket, hkey]

theorem hermiteH_le_right (y0 y1 δ m0 m1 hseg t : ℝ)
    (hh : 0 < hseg) (hδ : 0 ≤ δ) (hy1 : y1 = y0 + δ * hseg)
    (hm00 : 0 ≤ m0) (hm03 : m0 ≤ 3 * δ) (hm10 : 0 ≤ m1) (hm13 : m1 ≤ 3 * δ)
    (ht0 : 0 ≤ t) (ht1 : t ≤ 1) :
    y0 ≤ hermiteH y0 y1 m0 m1 hseg t ∧ hermiteH y0 y1 m0 m1 hseg t ≤ y1 := by
  constructor
  · have := hermiteH_mono y0 y1 δ m0 m1 hseg 0 t hh hδ hy1 hm00 hm03 hm10 hm13 le_rfl ht0 ht1
    rwa [hermiteH_zero] at this
  · have := hermiteH_mono y0 y1 δ m0 m1 hseg t 1 hh hδ hy1 hm00 hm03 hm10 hm13 ht0 ht1 le_rfl
    rwa [hermiteH_one] at this

/-- The tangent invariant established by the fix-up loop: all tangents stay
nonnegative, and each processed segment `k` has both its tangents inside the
Fritsch–Carlson box `[0, 3δₖ]`. -/
def TanInv (δ : ℕ → ℚ) (j : ℕ) (m : ℕ → ℝ) : Prop :=
  (∀ k, 0 ≤ m k) ∧ ∀ k < j, m k ≤ 3 * (δ k : ℝ) ∧ m (k + 1) ≤ 3 * (δ k : ℝ)

theorem tanInv_init (δ : ℕ → ℚ) (hδ : ∀ k, 0 ≤ δ k) (n : ℕ) :
    TanInv δ 0 (mInit δ n) := by
  refine ⟨fun k => ?_, fun k hk => absurd hk (Nat.not_lt_zero k)⟩
  unfold mInit
  split_ifs
  · exact_mod_cast hδ 0
  · exact_mod_cast hδ (n - 2)
  · have h3 : (0 : ℝ) ≤ (δ (k - 1) : ℝ) := by exact_mod_cast hδ (k - 1)
    have h4 : (0 : ℝ) ≤ (δ k : ℝ) := by exact_mod_cast hδ k
    linarith

theorem fixStep_preserves (δ : ℕ → ℚ) (hδ : ∀ k, 0 ≤ δ k) (j : ℕ) (m : ℕ → ℝ)
    (hm : TanInv δ j m) : TanInv δ (j + 1) (fixStep δ m j) := by
  obtain ⟨hnn, hbox⟩ := hm
  unfold fixStep
  split_ifs with hδ0
  · -- zero-width segment: both tangents zeroed
    constructor
    · intro k
      unfold updTan
      split_ifs
      · exact le_rfl
      · exact le_rfl
      · exact hnn k
    · intro k hk
      rcases Nat.lt_succ_iff_lt_or_eq.1 hk with hk' | hk'
      · have h1 : updTan (updTan m j 0) (j + 1) 0 k = m k := by
          unfold updTan
          rw [if_neg (by omega), if_neg (by omega)]
        have hδk : (0 : ℝ) ≤ (δ k : ℝ) := by exact_mod_cast hδ k
        have h2 : updTan (updTan m j 0) (j + 1) 0 (k + 1) ≤ 3 * (δ k : ℝ) := by
          unfold updTan
          split_ifs with he1 he2
          · linarith
          · linarith
          · exact (hbox k hk').2
        exact ⟨h1 ▸ (hbox k hk').1, h2⟩
      · subst hk'
        have h1 : updTan (updTan m k 0) (k + 1) 0 k = 0 := by
          unfold updTan
          rw [if_neg (by omega), if_pos rfl]
        have h2 : updTan (updTan m k 0) (k + 1) 0 (k + 1) = 0 := by
          unfold updTan
          rw [if_pos rfl]
        rw [h1, h2, hδ0]
        norm_num
  · -- live segment
    have hδpos : (0 : ℝ) < (δ j : ℝ) := by
      have := hδ j
      have hne : δ j ≠ 0 := hδ0
      exact_mod_cast lt_of_le_of_ne this (Ne.symm hne)
    have ha0 : 0 ≤ m j / (δ j : ℝ) := div_nonneg (hnn j) hδpos.le
    have hb0 : 0 ≤ m (j + 1) / (δ j : ℝ) := div_nonneg (hnn (j + 1)) hδpos.le
    dsimp only
    rw [if_neg (not_lt.2 ha0), if_neg (not_lt.2 hb0)]
    set a := m j / (δ j : ℝ) with hadef
    set b := m (j + 1) / (δ j : ℝ) with hbdef
    have hyp0 : 0 ≤ Real.sqrt (a * a + b * b) := Real.sqrt_nonneg _
    have ha_le : a ≤ Real.sqrt (a * a + b * b) := by
      have h1 := Real.sqrt_le_sqrt (show a * a ≤ a * a + b * b by nlinarith [mul_self_nonneg b])
      rwa [Real.sqrt_mul_self ha0] at h1
    have hb_le : b ≤ Real.sqrt (a * a + b * b) := by
      have h1 := Real.sqrt_le_sqrt (show b * b ≤ a * a + b * b by nlinarith [mul_self_nonneg a])
      rwa [Real.sqrt_mul_self hb0] at h1
    have hmj : m j = a * (δ j : ℝ) := by
      rw [hadef, div_mul_cancel₀]
      exact hδpos.ne'
    have hmj1 : m (j + 1) = b * (δ j : ℝ) := by
      rw [hbdef, div_mul_cancel₀]
      exact hδpos.ne'
    split_ifs with hhyp
    · -- rescaled onto the circle of radius 3
      have hyppos : (0 : ℝ) < Real.sqrt (a * a + b * b) := lt_trans (by norm_num) hhyp
      have hτ0 : 0 ≤ 3 / Real.sqrt (a * a + b * b) := by positivity
      have hτ1 : 3 / Real.sqrt (a * a + b * b) ≤ 1 := by
        rw [div_le_one hyppos]
        exact hhyp.le
      constructor
      · intro k
        unfold updTan
        split_ifs with he1 he2
        · exact mul_nonneg (hnn (j + 1)) hτ0
        · exact mul_nonneg (hnn j) hτ0
        · exact hnn k
      · intro k hk
        have hentry_j : updTan (updTan m j (m j * (3 / Real.sqrt (a * a + b * b))))
            (j + 1) (m (j + 1) * (3 / Real.sqrt (a * a + b * b))) j =
            m j * (3 / Real.sqrt (a * a + b * b)) := by
          unfold updTan
          rw [if_neg (by omega), if_pos rfl]
        have hentry_j1 : updTan (updTan m j (m j * (3 / Real.sqrt (a * a + b * b))))
            (j + 1) (m (j + 1) * (3 / Real.sqrt (a * a + b * b))) (j + 1) =
            m (j + 1) * (3 / Real.sqrt (a * a + b * b)) := by
          unfold updTan
          rw [if_pos rfl]
        have hscale_j : m j * (3 / Real.sqrt (a * a + b * b)) ≤ 3 * (δ j : ℝ) := by
          rw [hmj]
          rw [show a * (δ j : ℝ) * (3 / Real.sqrt (a * a + b * b)) =
            (a / Real.sqrt (a * a + b * b)) * 3 * (δ j : ℝ) by ring]
          have : a / Real.sqrt (a * a + b * b) ≤ 1 := (div_le_one hyppos).2 ha_le
          nlinarith
        have hscale_j1 : m (j + 1) * (3 / Real.sqrt (a * a + b * b)) ≤ 3 * (δ j : ℝ) := by
          rw [hmj1]
          rw [show b * (δ j : ℝ) * (3 / Real.sqrt (a * a + b * b)) =
            (b / Real.sqrt (a * a + b * b)) * 3 * (δ j : ℝ) by ring]
          have : b / Real.sqrt (a * a + b * b) ≤ 1 := (div_le_one hyppos).2 hb_le
          nlinarith
        rcases Nat.lt_succ_iff_lt_or_eq.1 hk with hk' | hk'
        · have h1 : updTan (updTan m j (m j * (3 / Real.sqrt (a * a + b * b))))
              (j + 1) (m (j + 1) * (3 / Real.sqrt (a * a + b * b))) k = m k := by
            unfold updTan
            rw [if_neg (by omega), if_neg (by omega)]
          refine ⟨h1 ▸ (hbox k hk').1, ?_⟩
          rcases Nat.lt_or_ge (k + 1) j with hkj | hkj
          · have h2 : updTan (updTan m j (m j * (3 / Real.sqrt (a * a + b * b))))
                (j + 1) (m (j + 1) * (3 / Real.sqrt (a * a + b * b))) (k + 1) = m (k + 1) := by
              unfold updTan
              rw [if_neg (by omega), if_neg (by omega)]
            exact h2 ▸ (hbox k hk').2
          · have hkj' : k + 1 = j := by omega
            rw [hkj', hentry_j]
            calc m j * (3 / Real.sqrt (a * a + b * b)) ≤ m j * 1 :=
                  mul_le_mul_of_nonneg_left hτ1 (hnn j)
              _ = m j := mul_one _
              _ ≤ 3 * (δ k : ℝ) := hkj' ▸ (hbox k hk').2
        · subst hk'
          rw [hentry_j, hentry_j1]
          exact ⟨hscale_j, hscale_j1⟩
    · -- within the circle already: unchanged, and the box follows
      have hyple : Real.sqrt (a * a + b * b) ≤ 3 := not_lt.1 hhyp
      refine ⟨hnn, fun k hk => ?_⟩
      rcases Nat.lt_succ_iff_lt_or_eq.1 hk with hk' | hk'
      · exact hbox k hk'
      · subst hk'
        constructor
        · rw [hmj]
          nlinarith [le_trans ha_le hyple]
        · rw [hmj1]
          nlinarith [le_trans hb_le hyple]

theorem mFinal_inv (δ : ℕ → ℚ) (hδ : ∀ k, 0 ≤ δ k) (n : ℕ) :
    TanInv δ (n - 1) (mFinal δ n) := by
  unfold mFinal
  generalize n - 1 = N
  induction N with
  | zero => exact tanInv_init δ hδ n
  | succ N ih =>
    rw [List.range_succ, List.foldl_append, List.foldl_cons, List.foldl_nil]
    exact fixStep_preserves δ hδ N _ ih

theorem ptX_of_ge (s : Curve) (k : ℕ) (hk : s.length ≤ k) : ptX s k = 0 := by
  unfold ptX
  rw [List.getD_eq_getElem?_getD, List.getElem?_eq_none hk]
  rfl

theorem ptX_nonneg (s : Curve) (hdom : ∀ q ∈ s, 0 ≤ q.1 ∧ 0 ≤ q.2) (k : ℕ) :
    0 ≤ ptX s k := by
  rcases Nat.lt_or_ge k s.length with hk | hk
  · unfold ptX
    rw [List.getD_eq_getElem?_getD, List.getElem?_eq_getElem hk]
    exact (hdom _ (List.getElem_mem _)).1
  · rw [ptX_of_ge s k hk]

theorem ptY_nonneg (s : Curve) (hdom : ∀ q ∈ s, 0 ≤ q.1 ∧ 0 ≤ q.2) (k : ℕ)
    (hk : k < s.length) : 0 ≤ ptY s k := by
  unfold ptY
  rw [List.getD_eq_getElem?_getD, List.getElem?_eq_getElem hk]
  exact (hdom _ (List.getElem_mem _)).2

theorem segDelta_nonneg (s : Curve)
    (hmono : ∀ k, k + 1 < s.length → ptY s k ≤ ptY s (k + 1))
    (hdom : ∀ q ∈ s, 0 ≤ q.1 ∧ 0 ≤ q.2) (k : ℕ) : 0 ≤ segDelta s k := by
  unfold segDelta
  split_ifs with h
  · exact le_rfl
  · push_neg at h
    rcases Nat.lt_or_ge (k + 1) s.length with hk | hk
    · exact div_nonneg (sub_nonneg.2 (hmono k hk)) (by linarith)
    · exfalso
      have hx1 : ptX s (k + 1) = 0 := ptX_of_ge s (k + 1) hk
      have hx0 : 0 ≤ ptX s k := ptX_nonneg s hdom k
      unfold segDx at h
      rw [hx1] at h
      linarith

theorem ptY_mono (s : Curve)
    (hmono : ∀ k, k + 1 < s.length → ptY s k ≤ ptY s (k + 1)) :
    ∀ a b, a ≤ b → b < s.length → ptY s a ≤ ptY s b := by
  intro a b
  induction b with
  | zero =>
    intro hab _
    have ha : a = 0 := Nat.le_zero.1 hab
    rw [ha]
  | succ b ih =>
    intro hab hb
    rcases Nat.eq_or_lt_of_le hab with he | hl
    · rw [he]
    · exact le_trans (ih (by omega) (by omega)) (hmono b hb)

/-- The segment-advance loop's specification: with enough fuel and a valid
starting index whose x is at most `i`, it returns an index that is at least
the start, still at most `n - 2`, has x at most `i`, and is either the final
segment or has its right endpoint at or past `i`. -/
theorem advIdx_spec (s : Curve) (n : ℕ) (i : ℚ) :
    ∀ fuel p, p + 2 ≤ n → n ≤ fuel + (p + 2) → ptX s p ≤ i →
      p ≤ advIdx s n i fuel p ∧ advIdx s n i fuel p + 2 ≤ n ∧
        ptX s (advIdx s n i fuel p) ≤ i ∧
        (advIdx s n i fuel p + 2 = n ∨ i ≤ ptX s (advIdx s n i fuel p + 1)) := by
  intro fuel
  induction fuel with
  | zero =>
    intro p hp hf hx
    simp only [advIdx]
    exact ⟨le_rfl, hp, hx, Or.inl (by omega)⟩
  | succ fuel ih =>
    intro p hp hf hx
    rw [advIdx]
    split_ifs with hc
    · obtain ⟨hcn, hcx⟩ := hc
      have h := ih (p + 1) (by omega) (by omega) hcx.le
      exact ⟨le_trans (Nat.le_succ p) h.1, h.2.1, h.2.2.1, h.2.2.2⟩
    · push_neg at hc
      refine ⟨le_rfl, hp, hx, ?_⟩
      rcases Nat.eq_or_lt_of_le hp with he | hl
      · exact Or.inl he
      · exact Or.inr (hc hl)

/-- Carried-pointer states of the LUT main loop started at position 0,
segment 0: each state indexes a valid segment whose left endpoint's x is at
most the position, and is the last segment or has right x at or past it. -/
theorem stateAt_spec (s : Curve) (n : ℕ) (hn : 2 ≤ n) (hx0 : ptX s 0 = 0) :
    ∀ k, stateAt s n 0 0 k + 2 ≤ n ∧ ptX s (stateAt s n 0 0 k) ≤ (k : ℚ) ∧
      (stateAt s n 0 0 k + 2 = n ∨ (k : ℚ) ≤ ptX s (stateAt s n 0 0 k + 1)) := by
  intro k
  induction k with
  | zero =>
    have h := advIdx_spec s n (((0 : ℕ) : ℚ)) n 0 (by omega) (by omega)
      (by rw [hx0]; norm_num)
    simp only [stateAt]
    exact ⟨h.2.1, h.2.2.1, h.2.2.2⟩
  | succ k ih =>
    simp only [stateAt]
    rw [Nat.zero_add]
    have h := advIdx_spec s n (((k + 1 : ℕ) : ℚ)) n (stateAt s n 0 0 k) ih.1 (by omega)
      (le_trans ih.2.1 (by push_cast; linarith))
    exact ⟨h.2.1, h.2.2.1, h.2.2.2⟩

theorem stateAt_le_succ (s : Curve) (n : ℕ) (hn : 2 ≤ n) (hx0 : ptX s 0 = 0) (k : ℕ) :
    stateAt s n 0 0 k ≤ stateAt s n 0 0 (k + 1) := by
  have ih := stateAt_spec s n hn hx0 k
  simp only [stateAt]
  rw [Nat.zero_add]
  exact (advIdx_spec s n (((k + 1 : ℕ) : ℚ)) n (stateAt s n 0 0 k) ih.1 (by omega)
    (le_trans ih.2.1 (by push_cast; linarith))).1

/-- `lutEntry` is the Hermite basis combination of the segment data. -/
theorem lutEntry_eq_hermite (s : Curve) (m : ℕ → ℝ) (i p : ℕ) :
    lutEntry s m i p =
      hermiteH (ptY s p : ℝ) (ptY s (p + 1) : ℝ) (m p) (m (p + 1)) ((segDx s p : ℝ))
        (if 1 / 10000000 < segDx s p then ((i : ℝ) - (ptX s p : ℝ)) / ((segDx s p : ℝ))
         else 0) := by
  unfold lutEntry hermiteH
  ring

/-- The Fritsch–Carlson box facts for a valid segment `p`, instantiated to
the fixed tangents of the curve. -/
theorem segment_box (s : Curve) (n : ℕ)
    (hmono : ∀ k, k + 1 < s.length → ptY s k ≤ ptY s (k + 1))
    (hdom : ∀ q ∈ s, 0 ≤ q.1 ∧ 0 ≤ q.2) (p : ℕ) (hp2 : p + 2 ≤ n) :
    0 ≤ mFinal (segDelta s) n p ∧ 0 ≤ mFinal (segDelta s) n (p + 1) ∧
      mFinal (segDelta s) n p ≤ 3 * ((segDelta s p : ℚ) : ℝ) ∧
      mFinal (segDelta s) n (p + 1) ≤ 3 * ((segDelta s p : ℚ) : ℝ) := by
  have hδ : ∀ k, 0 ≤ segDelta s k := segDelta_nonneg s hmono hdom
  have hinv := mFinal_inv (segDelta s) hδ n
  have hplt : p < n - 1 := by omega
  exact ⟨hinv.1 p, hinv.1 (p + 1), (hinv.2 p hplt).1, (hinv.2 p hplt).2⟩

/-- Within a valid segment and with the position between the segment's
endpoints, the LUT sample lies between the segment's endpoint y values. -/
theorem lutEntry_bounds (s : Curve) (n : ℕ)
    (hmono : ∀ k, k + 1 < s.length → ptY s k ≤ ptY s (k + 1))
    (hdom : ∀ q ∈ s, 0 ≤ q.1 ∧ 0 ≤ q.2)
    (hlen : n = s.length) (p : ℕ) (hp2 : p + 2 ≤ n) (i : ℕ)
    (hxl : ptX s p ≤ (i : ℚ)) (hxu : (i : ℚ) ≤ ptX s (p + 1)) :
    (ptY s p : ℝ) ≤ lutEntry s (mFinal (segDelta s) n) i p ∧
      lutEntry s (mFinal (segDelta s) n) i p ≤ (ptY s (p + 1) : ℝ) := by
  have hbox := segment_box s n hmono hdom p hp2
  have hδ0 : (0 : ℝ) ≤ ((segDelta s p : ℚ) : ℝ) := by
    exact_mod_cast segDelta_nonneg s hmono hdom p
  rw [lutEntry_eq_hermite]
  by_cases hseg : 1 / 10000000 < segDx s p
  · rw [if_pos hseg]
    have hh : (0 : ℝ) < ((segDx s p : ℚ) : ℝ) := by
      have : (0 : ℚ) < segDx s p := lt_trans (by norm_num) hseg
      exact_mod_cast this
    have hδval : segDelta s p = (ptY s (p + 1) - ptY s p) / segDx s p := by
      unfold segDelta
      rw [if_neg (not_le.2 hseg)]
    have hy1 : ((ptY s (p + 1) : ℚ) : ℝ) =
        ((ptY s p : ℚ) : ℝ) + ((segDelta s p : ℚ) : ℝ) * ((segDx s p : ℚ) : ℝ) := by
      rw [hδval]
      push_cast
      field_simp
    have ht0 : 0 ≤ ((i : ℝ) - ((ptX s p : ℚ) : ℝ)) / ((segDx s p : ℚ) : ℝ) := by
      apply div_nonneg _ hh.le
      have : ((ptX s p : ℚ) : ℝ) ≤ ((i : ℚ) : ℝ) := by exact_mod_cast hxl
      push_cast at this
      linarith
    have ht1 : ((i : ℝ) - ((ptX s p : ℚ) : ℝ)) / ((segDx s p : ℚ) : ℝ) ≤ 1 := by
      rw [div_le_one hh]
      have hxu' : ((i : ℚ) : ℝ) ≤ ((ptX s (p + 1) : ℚ) : ℝ) := by exact_mod_cast hxu
      have hdx : ((segDx s p : ℚ) : ℝ) =
          ((ptX s (p + 1) : ℚ) : ℝ) - ((ptX s p : ℚ) : ℝ) := by
        unfold segDx
        push_cast
        ring
      push_cast at hxu'
      rw [hdx]
      linarith
    exact hermiteH_le_right _ _ _ _ _ _ _ hh hδ0 hy1 hbox.1 hbox.2.2.1 hbox.2.1
      hbox.2.2.2 ht0 ht1
  · rw [if_neg hseg, hermiteH_zero]
    refine ⟨le_rfl, ?_⟩
    have : ptY s p ≤ ptY s (p + 1) := hmono p (by omega)
    exact_mod_cast this

/-- Within one valid segment the LUT sample is monotone in the position. -/
theorem lutEntry_mono_same (s : Curve) (n : ℕ)
    (hmono : ∀ k, k + 1 < s.length → ptY s k ≤ ptY s (k + 1))
    (hdom : ∀ q ∈ s, 0 ≤ q.1 ∧ 0 ≤ q.2)
    (hlen : n = s.length) (p : ℕ) (hp2 : p + 2 ≤ n) (i j : ℕ) (hij : i ≤ j)
    (hxl : ptX s p ≤ (i : ℚ)) (hxu : (j : ℚ) ≤ ptX s (p + 1)) :
    lutEntry s (mFinal (segDelta s) n) i p ≤ lutEntry s (mFinal (segDelta s) n) j p := by
  have hbox := segment_box s n hmono hdom p hp2
  have hδ0 : (0 : ℝ) ≤ ((segDelta s p : ℚ) : ℝ) := by
    exact_mod_cast segDelta_nonneg s hmono hdom p
  rw [lutEntry_eq_hermite, lutEntry_eq_hermite]
  by_cases hseg : 1 / 10000000 < segDx s p
  · rw [if_pos hseg, if_pos hseg]
    have hh : (0 : ℝ) < ((segDx s p : ℚ) : ℝ) := by
      have : (0 : ℚ) < segDx s p := lt_trans (by norm_num) hseg
      exact_mod_cast this
    have hδval : segDelta s p = (ptY s (p + 1) - ptY s p) / segDx s p := by
      unfold segDelta
      rw [if_neg (not_le.2 hseg)]
    have hy1 : ((ptY s (p + 1) : ℚ) : ℝ) =
        ((ptY s p : ℚ) : ℝ) + ((segDelta s p : ℚ) : ℝ) * ((segDx s p : ℚ) : ℝ) := by
      rw [hδval]
      push_cast
      field_simp
    have hxli : ((ptX s p : ℚ) : ℝ) ≤ (i : ℝ) := by
      have : ((ptX s p : ℚ) : ℝ) ≤ ((i : ℚ) : ℝ) := by exact_mod_cast hxl
      push_cast at this
      linarith
    have ht0 : 0 ≤ ((i : ℝ) - ((ptX s p : ℚ) : ℝ)) / ((segDx s p : ℚ) : ℝ) :=
      div_nonneg (by linarith) hh.le
    have hijR : (i : ℝ) ≤ (j : ℝ) := by exact_mod_cast hij
    have ht12 : ((i : ℝ) - ((ptX s p : ℚ) : ℝ)) / ((segDx s p : ℚ) : ℝ) ≤
        ((j : ℝ) - ((ptX s p : ℚ) : ℝ)) / ((segDx s p : ℚ) : ℝ) := by
      apply div_le_div_of_nonneg_right _ hh.le |>.trans le_rfl
      linarith
    have ht1 : ((j : ℝ) - ((ptX s p : ℚ) : ℝ)) / ((segDx s p : ℚ) : ℝ) ≤ 1 := by
      rw [div_le_one hh]
      have hxu' : ((j : ℚ) : ℝ) ≤ ((ptX s (p + 1) : ℚ) : ℝ) := by exact_mod_cast hxu
      have hdx : ((segDx s p : ℚ) : ℝ) =
          ((ptX s (p + 1) : ℚ) : ℝ) - ((ptX s p : ℚ) : ℝ) := by
        unfold segDx
        push_cast
        ring
      push_cast at hxu'
      rw [hdx]
      linarith
    exact hermiteH_mono _ _ _ _ _ _ _ _ hh hδ0 hy1 hbox.1 hbox.2.2.1 hbox.2.1
      hbox.2.2.2 ht0 ht12 ht1
  · rw [if_neg hseg, if_neg hseg, hermiteH_zero]

theorem createLut_main (pts : Curve) (hn2 : 2 ≤ (sortedPoints pts).length) :
    createLutFromPoints pts =
      (lutLoop (sortedPoints pts) (sortedPoints pts).length
          (mFinal (segDelta (sortedPoints pts)) (sortedPoints pts).length) 256 0 0).set 255
        ((ptY (sortedPoints pts) ((sortedPoints pts).length - 1) : ℚ) : ℝ) := by
  unfold createLutFromPoints
  dsimp only
  rw [if_neg (by omega), if_neg (by omega)]

theorem lut_getD_main (pts : Curve) (hn2 : 2 ≤ (sortedPoints pts).length) (k : ℕ)
    (hk : k < 255) :
    (createLutFromPoints pts).getD k 0 =
      clamp255 (lutEntry (sortedPoints pts)
        (mFinal (segDelta (sortedPoints pts)) (sortedPoints pts).length) k
        (stateAt (sortedPoints pts) (sortedPoints pts).length 0 0 k)) := by
  rw [createLut_main pts hn2, List.getD_eq_getElem?_getD, ← List.get?_eq_getElem?,
    List.get?_set_ne _ _ (show (255 : ℕ) ≠ k by omega),
    lutLoop_get? _ _ _ 256 k 0 0 (by omega)]
  simp only [Option.getD_some, Nat.zero_add]

theorem lut_getD_last (pts : Curve) (hn2 : 2 ≤ (sortedPoints pts).length) :
    (createLutFromPoints pts).getD 255 0 =
      ((ptY (sortedPoints pts) ((sortedPoints pts).length - 1) : ℚ) : ℝ) := by
  rw [createLut_main pts hn2, List.getD_eq_getElem?_getD, ← List.get?_eq_getElem?,
    List.get?_set_eq_of_lt _ (by rw [lutLoop_length]; omega)]
  simp only [Option.getD_some]

/-- The carried state's right endpoint is at or past the position, for
positions in [0,255], using the coverage of the domain. -/
theorem state_upper (pts : Curve) (hn2 : 2 ≤ (sortedPoints pts).length)
    (hx0 : ptX (sortedPoints pts) 0 = 0)
    (hxlast : ptX (sortedPoints pts) ((sortedPoints pts).length - 1) = 255)
    (k : ℕ) (hk : k ≤ 255) :
    (k : ℚ) ≤ ptX (sortedPoints pts)
      (stateAt (sortedPoints pts) (sortedPoints pts).length 0 0 k + 1) := by
  have hspec := stateAt_spec (sortedPoints pts) (sortedPoints pts).length hn2 hx0 k
  rcases hspec.2.2 with hq | hq
  · have he : stateAt (sortedPoints pts) (sortedPoints pts).length 0 0 k + 1 =
        (sortedPoints pts).length - 1 := by omega
    rw [he, hxlast]
    exact_mod_cast hk
  · exact hq

/-- Adjacent LUT samples are ordered, for positions below 255. -/
theorem lutEntry_chain (pts : Curve)
    (hmono : ∀ k, k + 1 < (sortedPoints pts).length →
      ptY (sortedPoints pts) k ≤ ptY (sortedPoints pts) (k + 1))
    (hdom : ∀ q ∈ sortedPoints pts, 0 ≤ q.1 ∧ 0 ≤ q.2)
    (hn2 : 2 ≤ (sortedPoints pts).length)
    (hx0 : ptX (sortedPoints pts) 0 = 0)
    (hxlast : ptX (sortedPoints pts) ((sortedPoints pts).length - 1) = 255)
    (k : ℕ) (hk : k + 1 ≤ 255) :
    clamp255 (lutEntry (sortedPoints pts)
        (mFinal (segDelta (sortedPoints pts)) (sortedPoints pts).length) k
        (stateAt (sortedPoints pts) (sortedPoints pts).length 0 0 k)) ≤
      clamp255 (lutEntry (sortedPoints pts)
        (mFinal (segDelta (sortedPoints pts)) (sortedPoints pts).length) (k + 1)
        (stateAt (sortedPoints pts) (sortedPoints pts).length 0 0 (k + 1))) := by
  have hq := stateAt_spec (sortedPoints pts) (sortedPoints pts).length hn2 hx0 k
  have hq' := stateAt_spec (sortedPoints pts) (sortedPoints pts).length hn2 hx0 (k + 1)
  have hle := stateAt_le_succ (sortedPoints pts) (sortedPoints pts).length hn2 hx0 k
  rcases Nat.eq_or_lt_of_le hle with he | hl
  · apply clamp255_mono
    rw [← he]
    apply lutEntry_mono_same (sortedPoints pts) (sortedPoints pts).length hmono hdom rfl
      _ hq.1 k (k + 1) (Nat.le_succ k) hq.2.1
    rw [he]
    exact state_upper pts hn2 hx0 hxlast (k + 1) hk
  · apply clamp255_mono
    have hb1 := lutEntry_bounds (sortedPoints pts) (sortedPoints pts).length hmono hdom rfl
      _ hq.1 k hq.2.1 (state_upper pts hn2 hx0 hxlast k (by omega))
    have hb2 := lutEntry_bounds (sortedPoints pts) (sortedPoints pts).length hmono hdom rfl
      _ hq'.1 (k + 1) hq'.2.1 (state_upper pts hn2 hx0 hxlast (k + 1) hk)
    have hyy : ptY (sortedPoints pts) (stateAt (sortedPoints pts)
        (sortedPoints pts).length 0 0 k + 1) ≤
        ptY (sortedPoints pts) (stateAt (sortedPoints pts)
          (sortedPoints pts).length 0 0 (k + 1)) :=
      ptY_mono (sortedPoints pts) hmono _ _ (by omega) (by omega)
    have hyyR : ((ptY (sortedPoints pts) (stateAt (sortedPoints pts)
        (sortedPoints pts).length 0 0 k + 1) : ℚ) : ℝ) ≤
        ((ptY (sortedPoints pts) (stateAt (sortedPoints pts)
          (sortedPoints pts).length 0 0 (k + 1)) : ℚ) : ℝ) := by exact_mod_cast hyy
    linarith [hb1.2, hb2.1]

/-- The clamped sample at position 254 is at most the forced final entry. -/
theorem lutEntry_le_last (pts : Curve)
    (hmono : ∀ k, k + 1 < (sortedPoints pts).length →
      ptY (sortedPoints pts) k ≤ ptY (sortedPoints pts) (k + 1))
    (hdom : ∀ q ∈ sortedPoints pts, 0 ≤ q.1 ∧ 0 ≤ q.2)
    (hn2 : 2 ≤ (sortedPoints pts).length)
    (hx0 : ptX (sortedPoints pts) 0 = 0)
    (hxlast : ptX (sortedPoints pts) ((sortedPoints pts).length - 1) = 255) :
    clamp255 (lutEntry (sortedPoints pts)
        (mFinal (segDelta (sortedPoints pts)) (sortedPoints pts).length) 254
        (stateAt (sortedPoints pts) (sortedPoints pts).length 0 0 254)) ≤
      ((ptY (sortedPoints pts) ((sortedPoints pts).length - 1) : ℚ) : ℝ) := by
  have hq := stateAt_spec (sortedPoints pts) (sortedPoints pts).length hn2 hx0 254
  have hb := lutEntry_bounds (sortedPoints pts) (sortedPoints pts).length hmono hdom rfl
    _ hq.1 254 hq.2.1 (state_upper pts hn2 hx0 hxlast 254 (by norm_num))
  have hyy : ptY (sortedPoints pts) (stateAt (sortedPoints pts)
      (sortedPoints pts).length 0 0 254 + 1) ≤
      ptY (sortedPoints pts) ((sortedPoints pts).length - 1) :=
    ptY_mono (sortedPoints pts) hmono _ _ (by omega) (by omega)
  have hyyR : ((ptY (sortedPoints pts) (stateAt (sortedPoints pts)
      (sortedPoints pts).length 0 0 254 + 1) : ℚ) : ℝ) ≤
      ((ptY (sortedPoints pts) ((sortedPoints pts).length - 1) : ℚ) : ℝ) := by
    exact_mod_cast hyy
  have hY0 : (0 : ℝ) ≤ ((ptY (sortedPoints pts) ((sortedPoints pts).length - 1) : ℚ) : ℝ) := by
    have := ptY_nonneg (sortedPoints pts) hdom ((sortedPoints pts).length - 1) (by omega)
    exact_mod_cast this
  unfold clamp255
  exact max_le hY0 (le_trans (min_le_right _ _) (by linarith [hb.2]))

/-- C3 (amended): for every control-point list that — after deduplication by
x and sorting — has coordinates in the data-model range (`x, y ≥ 0`), y
values monotone non-decreasing in x order, and x values covering the full
domain (first x = 0, last x = 255), the 256-entry LUT produced by
`createLutFromPoints` is monotone non-decreasing: `lut[i] ≤ lut[i+1]` for
every `i` in [0,254].  Without the coverage hypotheses the Hermite segment
is extrapolated past its endpoints and monotonicity fails (see the
counterexample). -/
theorem lut_monotone_amended (pts : Curve)
    (hmono : ∀ k, k + 1 < (sortedPoints pts).length →
      ptY (sortedPoints pts) k ≤ ptY (sortedPoints pts) (k + 1))
    (hdom : ∀ q ∈ sortedPoints pts, 0 ≤ q.1 ∧ 0 ≤ q.2)
    (hx0 : ptX (sortedPoints pts) 0 = 0)
    (hxlast : ptX (sortedPoints pts) ((sortedPoints pts).length - 1) = 255)
    (i : ℕ) (hi : i < 255) :
    (createLutFromPoints pts).getD i 0 ≤ (createLutFromPoints pts).getD (i + 1) 0 := by
  have hn2 : 2 ≤ (sortedPoints pts).length := by
    rcases Nat.lt_or_ge (sortedPoints pts).length 2 with h2 | h2
    · exfalso
      rcases (show (sortedPoints pts).length = 0 ∨ (sortedPoints pts).length = 1
          by omega) with h0 | h1
      · have hsnil : sortedPoints pts = [] := List.length_eq_zero.1 h0
        rw [hsnil] at hxlast
        unfold ptX at hxlast
        rw [List.getD_eq_getElem?_getD] at hxlast
        norm_num at hxlast
      · rw [h1] at hxlast
        norm_num at hxlast
        rw [hx0] at hxlast
        norm_num at hxlast
    · exact h2
  rcases Nat.lt_or_ge (i + 1) 255 with hi1 | hi1
  · rw [lut_getD_main pts hn2 i hi, lut_getD_main pts hn2 (i + 1) hi1]
    exact lutEntry_chain pts hmono hdom hn2 hx0 hxlast i (by omega)
  · have hi254 : i = 254 := by omega
    subst hi254
    rw [lut_getD_main pts hn2 254 (by norm_num),
      show (254 : ℕ) + 1 = 255 from rfl, lut_getD_last pts hn2]
    exact lutEntry_le_last pts hmono hdom hn2 hx0 hxlast

/-! The counterexample curve: y monotone, but the x range stops at 20, so
positions 21..254 extrapolate the last Hermite segment (t > 1), where the
cubic is no longer monotone. -/

def curve3 : Curve := [(0, 0), (10, 10), (20, 100)]

theorem sortedPoints_curve3 : sortedPoints curve3 = curve3 := by decide

theorem sqrt26_gt_5 : (5 : ℝ) < Real.sqrt 26 := by
  rw [show (5 : ℝ) = Real.sqrt 25 by
    rw [show (25 : ℝ) = 5 ^ 2 by norm_num, Real.sqrt_sq (by norm_num : (0 : ℝ) ≤ 5)]]
  exact Real.sqrt_lt_sqrt (by norm_num) (by norm_num)

theorem sqrt26_gt_3 : (3 : ℝ) < Real.sqrt 26 :=
  lt_trans (by norm_num) sqrt26_gt_5

theorem sqrt26_pos : (0 : ℝ) < Real.sqrt 26 :=
  lt_trans (by norm_num) sqrt26_gt_5

theorem segDelta3_0 : segDelta curve3 0 = 1 := by
  have hdx : segDx curve3 0 = 10 := by
    unfold segDx
    rw [show ptX curve3 1 = 10 by simp [ptX, curve3],
      show ptX curve3 0 = 0 by simp [ptX, curve3]]
    norm_num
  unfold segDelta
  rw [hdx, if_neg (by norm_num : ¬(10 : ℚ) ≤ 1 / 10000000),
    show ptY curve3 1 = 10 by simp [ptY, curve3],
    show ptY curve3 0 = 0 by simp [ptY, curve3]]
  norm_num

theorem segDx3_1 : segDx curve3 1 = 10 := by
  unfold segDx
  rw [show ptX curve3 2 = 20 by simp [ptX, curve3],
    show ptX curve3 1 = 10 by simp [ptX, curve3]]
  norm_num

theorem segDelta3_1 : segDelta curve3 1 = 9 := by
  unfold segDelta
  rw [segDx3_1, if_neg (by norm_num : ¬(10 : ℚ) ≤ 1 / 10000000),
    show ptY curve3 2 = 100 by simp [ptY, curve3],
    show ptY curve3 1 = 10 by simp [ptY, curve3]]
  norm_num

theorem mInit3_0 : mInit (segDelta curve3) 3 0 = 1 := by
  unfold mInit
  rw [if_pos rfl, segDelta3_0]
  norm_num

theorem mInit3_1 : mInit (segDelta curve3) 3 1 = 5 := by
  unfold mInit
  rw [if_neg (by norm_num : ¬(1 : ℕ) = 0), if_neg (by norm_num : ¬(1 : ℕ) = 3 - 1),
    show (1 : ℕ) - 1 = 0 from rfl, segDelta3_0, segDelta3_1]
  norm_num

theorem mInit3_2 : mInit (segDelta curve3) 3 2 = 9 := by
  unfold mInit
  rw [if_neg (by norm_num : ¬(2 : ℕ) = 0), if_pos (by norm_num : (2 : ℕ) = 3 - 1),
    show (3 : ℕ) - 2 = 1 from rfl, segDelta3_1]
  norm_num

theorem updTan_at (m : ℕ → ℝ) (k : ℕ) (v : ℝ) (j : ℕ) :
    updTan m k v j = if j = k then v else m j := rfl

theorem step0_eq : fixStep (segDelta curve3) (mInit (segDelta curve3) 3) 0 =
    updTan (updTan (mInit (segDelta curve3) 3) 0
        (mInit (segDelta curve3) 3 0 * (3 / Real.sqrt 26)))
      1 (mInit (segDelta curve3) 3 1 * (3 / Real.sqrt 26)) := by
  unfold fixStep
  rw [if_neg (by rw [segDelta3_0]; norm_num)]
  dsimp only
  rw [show (0 : ℕ) + 1 = 1 from rfl]
  have hc1 : ¬ mInit (segDelta curve3) 3 0 / ((segDelta curve3 0 : ℚ) : ℝ) < 0 := by
    rw [mInit3_0, segDelta3_0]
    norm_num
  have hc2 : ¬ mInit (segDelta curve3) 3 1 / ((segDelta curve3 0 : ℚ) : ℝ) < 0 := by
    rw [mInit3_1, segDelta3_0]
    norm_num
  have he26 : mInit (segDelta curve3) 3 0 / ((segDelta curve3 0 : ℚ) : ℝ) *
      (mInit (segDelta curve3) 3 0 / ((segDelta curve3 0 : ℚ) : ℝ)) +
      mInit (segDelta curve3) 3 1 / ((segDelta curve3 0 : ℚ) : ℝ) *
      (mInit (segDelta curve3) 3 1 / ((segDelta curve3 0 : ℚ) : ℝ)) = 26 := by
    rw [mInit3_0, mInit3_1, segDelta3_0]
    push_cast
    norm_num
  rw [if_neg hc1, if_neg hc2, he26, if_pos sqrt26_gt_3]

theorem step0_at_1 :
    fixStep (segDelta curve3) (mInit (segDelta curve3) 3) 0 1 = 15 / Real.sqrt 26 := by
  rw [step0_eq, updTan_at, if_pos rfl, mInit3_1]
  ring

theorem step0_at_2 :
    fixStep (segDelta curve3) (mInit (segDelta curve3) 3) 0 2 = 9 := by
  rw [step0_eq, updTan_at, if_neg (by norm_num), updTan_at, if_neg (by norm_num)]
  exact mInit3_2

theorem step1_id :
    fixStep (segDelta curve3) (fixStep (segDelta curve3) (mInit (segDelta curve3) 3) 0) 1 =
      fixStep (segDelta curve3) (mInit (segDelta curve3) 3) 0 := by
  have hS1 := step0_at_1
  have hS2 := step0_at_2
  generalize hG : fixStep (segDelta curve3) (mInit (segDelta curve3) 3) 0 = G
  rw [hG] at hS1 hS2
  unfold fixStep
  rw [if_neg (by rw [segDelta3_1]; norm_num)]
  dsimp only
  rw [show (1 : ℕ) + 1 = 2 from rfl]
  have hc1 : ¬ G 1 / ((segDelta curve3 1 : ℚ) : ℝ) < 0 := by
    rw [hS1, segDelta3_1]
    push_cast
    exact not_lt.2 (by positivity)
  have hc2 : ¬ G 2 / ((segDelta curve3 1 : ℚ) : ℝ) < 0 := by
    rw [hS2, segDelta3_1]
    push_cast
    exact not_lt.2 (by positivity)
  have hc3 : ¬ 3 < Real.sqrt (G 1 / ((segDelta curve3 1 : ℚ) : ℝ) *
      (G 1 / ((segDelta curve3 1 : ℚ) : ℝ)) +
      G 2 / ((segDelta curve3 1 : ℚ) : ℝ) * (G 2 / ((segDelta curve3 1 : ℚ) : ℝ))) := by
    rw [hS1, hS2, segDelta3_1]
    apply not_lt.2
    have hs : Real.sqrt 26 * Real.sqrt 26 = 26 := Real.mul_self_sqrt (by norm_num)
    have hb : 15 / Real.sqrt 26 / ((9 : ℚ) : ℝ) * (15 / Real.sqrt 26 / ((9 : ℚ) : ℝ)) +
        (9 : ℝ) / ((9 : ℚ) : ℝ) * ((9 : ℝ) / ((9 : ℚ) : ℝ)) ≤ 9 := by
      push_cast
      have e1 : (15 : ℝ) / Real.sqrt 26 / 9 * (15 / Real.sqrt 26 / 9) =
          225 / (81 * (Real.sqrt 26 * Real.sqrt 26)) := by
        ring
      rw [e1, hs]
      norm_num
    calc Real.sqrt (15 / Real.sqrt 26 / ((9 : ℚ) : ℝ) * (15 / Real.sqrt 26 / ((9 : ℚ) : ℝ)) +
          (9 : ℝ) / ((9 : ℚ) : ℝ) * ((9 : ℝ) / ((9 : ℚ) : ℝ))) ≤ Real.sqrt 9 :=
        Real.sqrt_le_sqrt hb
      _ = 3 := by
        rw [show (9 : ℝ) = 3 ^ 2 by norm_num, Real.sqrt_sq (by norm_num : (0 : ℝ) ≤ 3)]
  rw [if_neg hc1, if_neg hc2, if_neg hc3]

theorem mFinal3_eq : mFinal (segDelta curve3) 3 =
    fixStep (segDelta curve3) (fixStep (segDelta curve3) (mInit (segDelta curve3) 3) 0) 1 := by
  unfold mFinal
  rw [show (3 : ℕ) - 1 = 2 from rfl,
    show List.range 2 = [0, 1] by decide,
    List.foldl_cons, List.foldl_cons, List.foldl_nil]

theorem mFinal3_1 : mFinal (segDelta curve3) 3 1 = 15 / Real.sqrt 26 := by
  rw [mFinal3_eq, step1_id]
  exact step0_at_1

theorem mFinal3_2 : mFinal (segDelta curve3) 3 2 = 9 := by
  rw [mFinal3_eq, step1_id]
  exact step0_at_2

theorem state3_24 : stateAt curve3 3 0 0 24 = 1 := by
  set_option maxRecDepth 20000 in decide

theorem state3_25 : stateAt curve3 3 0 0 25 = 1 := by
  set_option maxRecDepth 20000 in decide

theorem entry3_24 : lutEntry curve3 (mFinal (segDelta curve3) 3) 24 1 =
    2896 / 25 + 168 / 5 / Real.sqrt 26 := by
  unfold lutEntry
  dsimp only
  rw [show (1 : ℕ) + 1 = 2 from rfl, segDx3_1,
    if_pos (by norm_num : (1 / 10000000 : ℚ) < 10),
    show ptX curve3 1 = 10 by simp [ptX, curve3],
    show ptY curve3 1 = 10 by simp [ptY, curve3],
    show ptY curve3 2 = 100 by simp [ptY, curve3],
    mFinal3_1, mFinal3_2]
  have hs0 : Real.sqrt 26 ≠ 0 := ne_of_gt sqrt26_pos
  push_cast
  field_simp
  ring

theorem entry3_25 : lutEntry curve3 (mFinal (segDelta curve3) 3) 25 1 =
    445 / 4 + 225 / 4 / Real.sqrt 26 := by
  unfold lutEntry
  dsimp only
  rw [show (1 : ℕ) + 1 = 2 from rfl, segDx3_1,
    if_pos (by norm_num : (1 / 10000000 : ℚ) < 10),
    show ptX curve3 1 = 10 by simp [ptX, curve3],
    show ptY curve3 1 = 10 by simp [ptY, curve3],
    show ptY curve3 2 = 100 by simp [ptY, curve3],
    mFinal3_1, mFinal3_2]
  have hs0 : Real.sqrt 26 ≠ 0 := ne_of_gt sqrt26_pos
  push_cast
  field_simp
  ring

/-- C3 (counterexample): the curve `[(0,0),(10,10),(20,100)]` has y values
monotone non-decreasing in x order after deduplication, yet the LUT built
from it is not monotone: `lut[25] < lut[24]`.  Past the last control point
(x = 20) the code keeps evaluating the final Hermite segment with `t > 1`,
where the cubic overshoots and turns back down. -/
theorem lut_monotone_counterexample :
    (∀ k, k + 1 < (sortedPoints curve3).length →
      ptY (sortedPoints curve3) k ≤ ptY (sortedPoints curve3) (k + 1)) ∧
    (createLutFromPoints curve3).getD 25 0 < (createLutFromPoints curve3).getD 24 0 := by
  constructor
  · intro k hk
    have hlen3 : (sortedPoints curve3).length = 3 := by decide
    rw [hlen3] at hk
    rcases (show k = 0 ∨ k = 1 by omega) with h | h <;> subst h <;> decide
  · have hn2 : 2 ≤ (sortedPoints curve3).length := by decide
    have h24 := lut_getD_main curve3 hn2 24 (by norm_num)
    have h25 := lut_getD_main curve3 hn2 25 (by norm_num)
    rw [sortedPoints_curve3, show curve3.length = 3 from rfl, state3_24, entry3_24] at h24
    rw [sortedPoints_curve3, show curve3.length = 3 from rfl, state3_25, entry3_25] at h25
    rw [h24, h25]
    have hspos := sqrt26_pos
    have hinv1 : (0 : ℝ) < (Real.sqrt 26)⁻¹ := inv_pos.2 hspos
    have hinv2 : (Real.sqrt 26)⁻¹ < 1 / 5 := by
      rw [inv_lt_comm₀ hspos (by norm_num)]
      rw [show (1 / 5 : ℝ)⁻¹ = 5 by norm_num]
      exact sqrt26_gt_5
    have hv24 : clamp255 (2896 / 25 + 168 / 5 / Real.sqrt 26) =
        2896 / 25 + 168 / 5 / Real.sqrt 26 := by
      apply clamp255_of_mem
      · positivity
      · rw [div_eq_mul_inv (168 / 5 : ℝ)]
        nlinarith
    have hv25 : clamp255 (445 / 4 + 225 / 4 / Real.sqrt 26) =
        445 / 4 + 225 / 4 / Real.sqrt 26 := by
      apply clamp255_of_mem
      · positivity
      · rw [div_eq_mul_inv (225 / 4 : ℝ)]
        nlinarith
    rw [hv24, hv25, div_eq_mul_inv (168 / 5 : ℝ), div_eq_mul_inv (225 / 4 : ℝ)]
    nlinarith

theorem lut_monotone_amended_witness :
    (createLutFromPoints initialCurve).getD 100 0 ≤
      (createLutFromPoints initialCurve).getD 101 0 :=
  lut_monotone_amended initialCurve
    (fun k hk => by
      have hlen2 : (sortedPoints initialCurve).length = 2 := by decide
      rw [hlen2] at hk
      have hk0 : k = 0 := by omega
      subst hk0
      decide)
    (by decide) (by decide) (by decide) 100 (by norm_num)

end PhotoEditor
